import Mathlib

/-!
Verification of the GraphQL query-execution engine of graph-node
(`graphql/src/execution/execution.rs` and the query entrypoint in
`graphql/src/query/mod.rs`).

The execution engine is embedded shallowly: the query and schema ASTs, the
response value model and the `Execution` context become Lean inductive types
and structures; `unimplemented!()`, `.unwrap()` and `.expect(..)` panics
become an explicit `Panic` exception; the mutually recursive
`execute_selection_set` / `execute_field` / `complete_value` family takes an
explicit fuel parameter because the source recursion is not structurally
bounded (the recursion depth depends on the resolver's answers).
`collect_fields` needs no fuel: its recursion is well-founded by the measure
"number of document fragments not yet visited", which is exactly the
cycle-guard property of the source.

Helper modules that the execution code calls but whose sources are not part
of the analysed tree (`query/ast.rs`, `schema/ast.rs`, `values/coercion.rs`,
the introspection builder and the `Resolver` trait) are modelled from the
specification; each such definition says so in its doc comment.
-/

namespace Gq

/-- Source position (`graphql_parser::Pos`, also the error `Position`:
the latter is built from the former field-by-field). -/
structure Pos where
  line : Nat
  column : Nat
deriving DecidableEq, Repr

/-- The response/input value model (`graphql_parser::query::Value`).
`Float` literals are omitted: no embedded function inspects them and they
have no exact Lean counterpart. -/
inductive Value where
  | var (name : String)
  | int (i : Int)
  | str (s : String)
  | boolean (b : Bool)
  | null
  | enum (name : String)
  | list (values : List Value)
  | object (fields : List (String × Value))
deriving Repr

mutual

/-- Structural equality on values (Rust `PartialEq` on `q::Value`). -/
def value_beq : Value → Value → Bool
  | .var a, .var b => a == b
  | .int a, .int b => a == b
  | .str a, .str b => a == b
  | .boolean a, .boolean b => a == b
  | .null, .null => true
  | .enum a, .enum b => a == b
  | .list a, .list b => value_list_beq a b
  | .object a, .object b => value_fields_beq a b
  | _, _ => false

/-- Equality on value lists, component of `value_beq`. -/
def value_list_beq : List Value → List Value → Bool
  | [], [] => true
  | a :: as', b :: bs' => value_beq a b && value_list_beq as' bs'
  | _, _ => false

/-- Equality on ordered value maps, component of `value_beq`. -/
def value_fields_beq : List (String × Value) → List (String × Value) → Bool
  | [], [] => true
  | (k, v) :: as', (k', v') :: bs' => k == k' && value_beq v v' && value_fields_beq as' bs'
  | _, _ => false

end

/-- Whether a value is `Null` (the `resolved_value == q::Value::Null` test). -/
def Value.is_null : Value → Bool
  | .null => true
  | _ => false

mutual

/-- One selection in a selection set (`q::Selection`): a field, a fragment
spread (only its fragment name is consumed by the engine), or an inline
fragment (whose payload the engine never reads before panicking). -/
inductive Selection where
  | field (f : Field)
  | fragment_spread (fragment_name : String)
  | inline_fragment
deriving Repr

/-- A field selection (`q::Field`): position, optional alias, name,
argument literals and nested selection set. -/
inductive Field where
  | mk (position : Pos) (alias? : Option String) (name : String)
       (arguments : List (String × Value)) (selection_set : SelectionSet)
deriving Repr

/-- A selection set (`q::SelectionSet`): a source span plus the items. -/
inductive SelectionSet where
  | mk (span : Pos × Pos) (items : List Selection)
deriving Repr

end

/-- Position accessor for `Field`. -/
def Field.position : Field → Pos
  | .mk p _ _ _ _ => p

/-- Alias accessor for `Field`. -/
def Field.alias? : Field → Option String
  | .mk _ a _ _ _ => a

/-- Name accessor for `Field`. -/
def Field.name : Field → String
  | .mk _ _ n _ _ => n

/-- Arguments accessor for `Field`. -/
def Field.arguments : Field → List (String × Value)
  | .mk _ _ _ args _ => args

/-- Selection-set accessor for `Field`. -/
def Field.selection_set : Field → SelectionSet
  | .mk _ _ _ _ ss => ss

/-- Span accessor for `SelectionSet`. -/
def SelectionSet.span : SelectionSet → Pos × Pos
  | .mk sp _ => sp

/-- Items accessor for `SelectionSet`. -/
def SelectionSet.items : SelectionSet → List Selection
  | .mk _ it => it

/-- A fragment's type condition (`q::TypeCondition`, single `On` variant). -/
inductive TypeCondition where
  | on (name : String)
deriving Repr

/-- A named fragment definition of the query document. -/
structure FragmentDefinition where
  name : String
  type_condition : TypeCondition
  selection_set : SelectionSet
deriving Repr

/-- The query document, restricted to the parts the embedded functions
read: its fragment definitions (`qast::get_fragment` resolves spreads
against these). -/
structure Document where
  fragments : List FragmentDefinition
deriving Repr

/-- A declared type (`s::Type`): named, list or non-null wrapper. -/
inductive SType where
  | named (name : String)
  | list (t : SType)
  | non_null (t : SType)
deriving DecidableEq, Repr

/-- An argument definition (`s::InputValue`): name, declared type and an
optional default literal.  Source position, description and directives are
omitted: the engine never reads them. -/
structure InputValue where
  name : String
  value_type : SType
  default_value : Option Value
deriving Repr

/-- A field definition of an object or interface type (`s::Field`). -/
structure SField where
  name : String
  field_type : SType
  arguments : List InputValue
deriving Repr

/-- An object type definition (`s::ObjectType`). -/
structure ObjectType where
  name : String
  implements_interfaces : List String
  fields : List SField
deriving Repr

/-- An interface type definition (`s::InterfaceType`). -/
structure InterfaceType where
  name : String
  fields : List SField
deriving Repr

/-- A union type definition (`s::UnionType`): its member type names. -/
structure UnionType where
  name : String
  types : List String
deriving Repr

/-- An enum type definition (`s::EnumType`). -/
structure EnumType where
  name : String
deriving Repr

/-- A scalar type definition (`s::ScalarType`). -/
structure ScalarType where
  name : String
deriving Repr

/-- An input object type definition (`s::InputObjectType`); present only so
the catch-all `unimplemented!()` arms of the source have something to
catch. -/
structure InputObjectType where
  name : String
deriving Repr

/-- A schema type definition (`s::TypeDefinition`). -/
inductive TypeDefinition where
  | scalar (t : ScalarType)
  | object (t : ObjectType)
  | interface (t : InterfaceType)
  | union (t : UnionType)
  | enum (t : EnumType)
  | input_object (t : InputObjectType)
deriving Repr

/-- The schema document (`s::Document`), restricted to its type
definitions — the only part the engine reads. -/
structure SchemaDocument where
  definitions : List TypeDefinition
deriving Repr

/-- Equality of optional default literals (Rust `PartialEq` on
`Option<q::Value>`). -/
def option_value_beq : Option Value → Option Value → Bool
  | none, none => true
  | some a, some b => value_beq a b
  | _, _ => false

/-- Equality of argument-definition lists (Rust `PartialEq`). -/
def input_values_beq : List InputValue → List InputValue → Bool
  | [], [] => true
  | a :: as', b :: bs' =>
      a.name == b.name && a.value_type == b.value_type
        && option_value_beq a.default_value b.default_value
        && input_values_beq as' bs'
  | _, _ => false

/-- Equality of field-definition lists (Rust `PartialEq`). -/
def sfields_beq : List SField → List SField → Bool
  | [], [] => true
  | a :: as', b :: bs' =>
      a.name == b.name && a.field_type == b.field_type
        && input_values_beq a.arguments b.arguments
        && sfields_beq as' bs'
  | _, _ => false

/-- Structural equality of object types (Rust `PartialEq` on
`s::ObjectType`, used by `does_fragment_type_apply` and the root-query
probe of `get_field_type`). -/
def object_type_beq (a b : ObjectType) : Bool :=
  a.name == b.name
    && a.implements_interfaces == b.implements_interfaces
    && sfields_beq a.fields b.fields

/-- The execution error taxonomy (`execution/error.rs::ExecutionError`). -/
inductive ExecutionError where
  | operation_name_required
  | operation_not_found (name : String)
  | not_supported (message : String)
  | no_root_query_object_type
  | no_root_subscription_object_type
  | resolve_entity_error (position : Pos) (name : String)
  | non_null_error (position : Pos) (field_name : String)
  | list_value_error (position : Pos) (field_name : String)
  | named_type_error (type_name : String)
  | abstract_type_error (type_name : String)
  | invalid_argument_error (position : Pos) (arg_name : String) (value : Value)
  | missing_argument_error (position : Pos) (arg_name : String)
deriving Repr

/-- An abort of the execution: `unimplemented!()`, `.unwrap()`/`.expect`
panics and slice-index panics of the source, plus fuel exhaustion of the
embedding (the source's unbounded recursion). -/
inductive Panic where
  | unimplemented (site : String)
  | unwrap_failed (site : String)
  | index_out_of_bounds (site : String)
  | out_of_fuel
deriving DecidableEq, Repr

/-- Modelled from the spec: the resolver capability set of §4.3
(`execution/resolver.rs` is not part of the analysed tree).  Each
capability turns a parent value plus field metadata into a raw value;
`resolve_abstract_type` picks a concrete object type for an
interface/union value or reports failure. -/
structure Resolver where
  resolve_object : Option Value → String → SField → ObjectType → List (String × Value) → Value
  resolve_objects : Option Value → String → SField → ObjectType → List (String × Value) → Value
  resolve_enum_value : EnumType → Option Value → Value
  resolve_enum_values : EnumType → Option Value → Value
  resolve_scalar_value : ScalarType → Option Value → Value
  resolve_scalar_values : ScalarType → Option Value → Value
  resolve_abstract_type : SchemaDocument → TypeDefinition → Value → Option ObjectType

/-- The read-only part of the `Execution` struct: both schema documents,
the query document, both resolvers, and the external helpers.
`should_skip`/`should_include` are modelled from the spec (the `@skip` /
`@include` evaluators of `query/ast.rs` are not part of the analysed tree;
the active variables are already absorbed into the functions).
`coerce_value` is modelled from the spec: the literal-to-value coercion
function of `values/coercion.rs`, parameterized by a named-type resolver
callback. -/
structure Env where
  schema : SchemaDocument
  introspection_schema : SchemaDocument
  document : Document
  resolver : Resolver
  introspection_resolver : Resolver
  should_skip : Selection → Bool
  should_include : Selection → Bool
  coerce_value : Value → SType → (String → Option TypeDefinition) → Option Value

/-- The mutable part of the `Execution` struct threaded through the
recursion: the field stack, the `introspecting` flag and the accumulated
error list. -/
structure Ctx where
  fields : List Field
  introspecting : Bool
  errors : List ExecutionError

/-- Modelled from the spec: `qast::get_response_key` — the alias if
present, else the field name (§4.2, glossary). -/
def get_response_key (f : Field) : String :=
  f.alias?.getD f.name

/-- Modelled from the spec: `qast::get_fragment` — resolve a fragment
definition by name in the query document (§4.2). -/
def get_fragment (doc : Document) (name : String) : Option FragmentDefinition :=
  doc.fragments.find? (fun fr => fr.name == name)

/-- Modelled from the spec: `qast::get_argument_value` — look up a matching
literal in a field node's argument list by argument name (§4.5). -/
def get_argument_value (arguments : List (String × Value)) (name : String) : Option Value :=
  (arguments.find? (fun a => a.1 == name)).map (fun a => a.2)

/-- Name of a schema type definition (`sast::get_type_name`, modelled from
the spec's schema data model, §3). -/
def get_type_name : TypeDefinition → String
  | .scalar t => t.name
  | .object t => t.name
  | .interface t => t.name
  | .union t => t.name
  | .enum t => t.name
  | .input_object t => t.name

/-- Modelled from the spec: `sast::get_named_type` — schema-aware named-type
lookup: the first type definition carrying the name (§2, §4.5). -/
def get_named_type (schema : SchemaDocument) (name : String) : Option TypeDefinition :=
  schema.definitions.find? (fun td => get_type_name td == name)

/-- Modelled from the spec: `sast::get_root_query_type` — the schema's root
`Query` object type (§4.1). -/
def get_root_query_type (schema : SchemaDocument) : Option ObjectType :=
  schema.definitions.findSome? (fun td =>
    match td with
    | .object o => if o.name == "Query" then some o else none
    | _ => none)

/-- Modelled from the spec: `sast::get_field_type` on one object type — the
field definition carrying the name (§4.3). -/
def get_field_type_on (ot : ObjectType) (name : String) : Option SField :=
  ot.fields.find? (fun f => f.name == name)

/-- Modelled from the spec: `sast::get_argument_definitions` — the argument
definitions declared on the named field of the object type (§4.5). -/
def get_argument_definitions (ot : ObjectType) (field_name : String) : Option (List InputValue) :=
  (get_field_type_on ot field_name).map (fun f => f.arguments)

/-- The schema the engine currently acts on: the introspection schema when
`introspecting`, the user schema otherwise (the repeated
`if self.introspecting { self.introspection_schema } else { self.schema }`
of the source). -/
def active_schema (env : Env) (introspecting : Bool) : SchemaDocument :=
  if introspecting then env.introspection_schema else env.schema

/-- Determines whether a fragment applies to an object type
(`does_fragment_type_apply`, execution.rs lines 184-227): same object type,
an interface the object type implements, or a union listing the object type
among its members; anything else does not apply. -/
def does_fragment_type_apply (env : Env) (introspecting : Bool) (ot : ObjectType)
    (cond : TypeCondition) : Bool :=
  match cond with
  | .on name =>
    match get_named_type (active_schema env introspecting) name with
    | some (.object o) => object_type_beq ot o
    | some (.interface it) => ot.implements_interfaces.any (fun n => n == it.name)
    | some (.union ut) => ut.types.any (fun n => n == ot.name)
    | _ => false

/-- Membership test of the grouped field set (`IndexMap::contains_key`). -/
def grouped_contains (g : List (String × List Field)) (k : String) : Bool :=
  g.any (fun p => p.1 == k)

/-- Append one field to the group of its response key, creating the group at
the end on demand (the `contains_key`/`insert`/`get_mut`/`push` sequence of
`collect_fields`; `IndexMap` preserves first-insertion key order). -/
def group_push (g : List (String × List Field)) (k : String) (f : Field) :
    List (String × List Field) :=
  if grouped_contains g k then
    g.map (fun p => if p.1 == k then (p.1, p.2 ++ [f]) else p)
  else
    g ++ [(k, [f])]

/-- Append a whole field group to the group of a response key
(`entry(key).or_insert(vec![]).append(&mut fragment_group)`). -/
def group_append (g : List (String × List Field)) (k : String) (fs : List Field) :
    List (String × List Field) :=
  if grouped_contains g k then
    g.map (fun p => if p.1 == k then (p.1, p.2 ++ fs) else p)
  else
    g ++ [(k, fs)]

/-- Merge a fragment's grouped field set into the outer one, in the
fragment map's key order (the merge loop of `collect_fields`). -/
def merge_grouped (g sub : List (String × List Field)) : List (String × List Field) :=
  sub.foldl (fun acc p => group_append acc p.1 p.2) g

/-- The directive filter applied to a selection list before grouping
(the two `.filter` calls at the top of `collect_fields`). -/
def filter_selections (env : Env) (items : List Selection) : List Selection :=
  (items.filter (fun s => !env.should_skip s)).filter (fun s => env.should_include s)

/-- The names of the document's fragment definitions; `collect_fields`
terminates because every fragment expansion adds one of these to the
visited set. -/
def fragment_names (doc : Document) : List String :=
  doc.fragments.map (fun fr => fr.name)

/-- Number of document fragments not yet visited — the termination measure
of `collect_fields`. -/
def unvisited_count (doc : Document) (visited : List String) : Nat :=
  ((fragment_names doc).filter (fun n => !(visited.contains n))).length

/-- The combined directive-filtered weight of the not-yet-visited fragments
of a fragment list: an upper bound on the work a fragment expansion can
still trigger.  Used only to compute a sufficient recursion budget for
`collect_step`. -/
def frags_weight (env : Env) (frs : List FragmentDefinition) (visited : List String) : Nat :=
  match frs with
  | [] => 0
  | fr :: rest =>
      (if visited.contains fr.name then 0
       else (filter_selections env fr.selection_set.items).length + 1)
        + frags_weight env rest visited

/-- Termination measure of field collection: remaining selections plus the
weight of the fragments the cycle guard still allows to be expanded.  Every
recursive call of `collect_step` strictly decreases it. -/
def collect_measure (env : Env) (items : List Selection) (visited : List String) : Nat :=
  items.length + frags_weight env env.document.fragments visited

/-- The grouping loop of `collect_fields` (execution.rs lines 115-178) as a
fuel-indexed structural recursion: one pass over the (already
directive-filtered) selections, threading the grouped field set and the
visited-fragment set; fragment recursion goes through the directive filter
of the nested `collect_fields` call and restarts with an empty grouped map,
whose groups are then merged into the outer one.  An inline fragment aborts
with the source's `unimplemented!()`.  `collect_loop` below supplies a fuel
that is provably sufficient, so `.error .out_of_fuel` never escapes — that
is the termination argument for the source's unbounded recursion. -/
def collect_step (env : Env) (introspecting : Bool) (ot : ObjectType) :
    Nat → List Selection → List (String × List Field) → List String →
    Except Panic (List (String × List Field))
  | 0, _, _, _ => .error .out_of_fuel
  | _ + 1, [], grouped, _ => .ok grouped
  | fuel + 1, .field f :: rest, grouped, visited =>
      collect_step env introspecting ot fuel rest
        (group_push grouped (get_response_key f) f) visited
  | fuel + 1, .fragment_spread name :: rest, grouped, visited =>
      if visited.contains name then
        collect_step env introspecting ot fuel rest grouped visited
      else
        match get_fragment env.document name with
        | none => collect_step env introspecting ot fuel rest grouped (name :: visited)
        | some frag =>
            if does_fragment_type_apply env introspecting ot frag.type_condition then
              match collect_step env introspecting ot fuel
                  (filter_selections env frag.selection_set.items) [] (name :: visited) with
              | .error p => .error p
              | .ok sub =>
                  collect_step env introspecting ot fuel rest
                    (merge_grouped grouped sub) (name :: visited)
            else
              collect_step env introspecting ot fuel rest grouped (name :: visited)
  | _ + 1, .inline_fragment :: _, _, _ =>
      .error (.unimplemented "collect_fields: inline fragment")

/-- The `collect_fields` loop at its canonical (sufficient) budget. -/
def collect_loop (env : Env) (introspecting : Bool) (ot : ObjectType)
    (items : List Selection) (grouped : List (String × List Field))
    (visited : List String) : Except Panic (List (String × List Field)) :=
  collect_step env introspecting ot (collect_measure env items visited + 1)
    items grouped visited

/-- Collects the fields of a selection set into response-key groups
(`collect_fields`, execution.rs lines 98-181). -/
def collect_fields (env : Env) (introspecting : Bool) (ot : ObjectType)
    (selection_set : SelectionSet) (visited_fragments : Option (List String)) :
    Except Panic (List (String × List Field)) :=
  collect_loop env introspecting ot (filter_selections env selection_set.items) []
    (visited_fragments.getD [])

/-- Lexicographic comparison of character lists by code point — the key
order of `BTreeMap<String, _>` (UTF-8 byte order coincides with code-point
order). -/
def chars_lt : List Char → List Char → Bool
  | _, [] => false
  | [], _ :: _ => true
  | a :: as', b :: bs' =>
      if a.toNat < b.toNat then true
      else if b.toNat < a.toNat then false
      else chars_lt as' bs'

/-- Lexicographic string comparison (the `Ord` of `BTreeMap` keys). -/
def str_lt (a b : String) : Bool := chars_lt a.data b.data

/-- Insertion into the `BTreeMap`-backed result map of
`execute_selection_set`: the association list is kept sorted by key, so
list order is the map's iteration order. -/
def btree_insert (m : List (String × Value)) (k : String) (v : Value) :
    List (String × Value) :=
  match m with
  | [] => [(k, v)]
  | (k', v') :: rest =>
      if str_lt k k' then (k, v) :: (k', v') :: rest
      else if k == k' then (k, v) :: rest
      else (k', v') :: btree_insert rest k v

/-- Insertion into the `HashMap`-backed coerced-argument map: replace an
existing binding or append. -/
def alist_insert (m : List (String × Value)) (k : String) (v : Value) :
    List (String × Value) :=
  if m.any (fun p => p.1 == k) then
    m.map (fun p => if p.1 == k then (p.1, v) else p)
  else
    m ++ [(k, v)]

/-- Lookup in an ordered value map (`BTreeMap::get` on a resolved object
value, used by the enum/scalar resolution arms). -/
def alist_get (m : List (String × Value)) (k : String) : Option Value :=
  (m.find? (fun p => p.1 == k)).map (fun p => p.2)

/-- Lexicographic order on source positions (the derived `Ord` of
`graphql_parser::Pos`). -/
def pos_le (a b : Pos) : Bool :=
  a.line < b.line || (a.line == b.line && a.column ≤ b.column)

/-- `std::cmp::min` on positions (first argument on ties). -/
def pos_min (a b : Pos) : Pos := if pos_le a b then a else b

/-- `std::cmp::max` on positions (second argument on ties). -/
def pos_max (a b : Pos) : Pos := if pos_le a b then b else a

/-- Merges the selection sets of several fields into a single selection set
(`merge_selection_sets`, execution.rs lines 571-596): the span is the
min/max hull of all spans, the items are the concatenation of all items in
field order; the final `span.unwrap()` panics on an empty field list. -/
def merge_selection_sets (fields : List Field) : Except Panic SelectionSet :=
  let r := fields.foldl
    (fun (acc : Option (Pos × Pos) × List Selection) (field : Field) =>
      ( match acc.1 with
        | none => some field.selection_set.span
        | some (s, e) =>
            some (pos_min s field.selection_set.span.1, pos_max e field.selection_set.span.2)
      , acc.2 ++ field.selection_set.items))
    (none, [])
  match r.1 with
  | some sp => .ok (.mk sp r.2)
  | none => .error (.unwrap_failed "merge_selection_sets: span of empty field list")

/-- Resolves an abstract (interface/union) type into an object type via the
resolver (`resolve_abstract_type`, execution.rs lines 548-568); note the
source always calls `self.resolver` here, never the introspection
resolver — only the schema passed along switches. -/
def resolve_abstract_type (env : Env) (introspecting : Bool)
    (abstract_type : TypeDefinition) (object_value : Value) :
    Except ExecutionError ObjectType :=
  match env.resolver.resolve_abstract_type (active_schema env introspecting)
      abstract_type object_value with
  | some t => .ok t
  | none => .error (.abstract_type_error (get_type_name abstract_type))

/-- Resolves the value of a field of named type
(`resolve_field_value_for_named_type`, execution.rs lines 294-365):
objects go to the resolver's singular object entrypoint; enums/scalars read
the parent object's sub-field; interfaces and unions are `unimplemented!()`,
as is the input-object catch-all. -/
def resolve_field_value_for_named_type (env : Env) (introspecting : Bool)
    (object_value : Option Value) (field : Field) (field_definition : SField)
    (type_name : String) (argument_values : List (String × Value)) :
    Except Panic (Except ExecutionError Value) :=
  match get_named_type (active_schema env introspecting) type_name with
  | none => .ok (.error (.named_type_error type_name))
  | some named_type =>
    match named_type with
    | .object t =>
        if introspecting then
          .ok (.ok (env.introspection_resolver.resolve_object object_value field.name
            field_definition t argument_values))
        else
          .ok (.ok (env.resolver.resolve_object object_value field.name
            field_definition t argument_values))
    | .enum t =>
        match object_value with
        | some (.object o) =>
            if introspecting then
              .ok (.ok (env.introspection_resolver.resolve_enum_value t (alist_get o field.name)))
            else
              .ok (.ok (env.resolver.resolve_enum_value t (alist_get o field.name)))
        | _ => .ok (.ok .null)
    | .scalar t =>
        match object_value with
        | some (.object o) =>
            if introspecting then
              .ok (.ok (env.introspection_resolver.resolve_scalar_value t (alist_get o field.name)))
            else
              .ok (.ok (env.resolver.resolve_scalar_value t (alist_get o field.name)))
        | _ => .ok (.ok .null)
    | .interface _ => .error (.unimplemented "resolve_field_value_for_named_type: interface")
    | .union _ => .error (.unimplemented "resolve_field_value_for_named_type: union")
    | .input_object _ => .error (.unimplemented "resolve_field_value_for_named_type: other")

/-- Resolves the value of a field of list type
(`resolve_field_value_for_list_type`, execution.rs lines 368-455): non-null
wrappers unwrap, named inner types go to the resolver's plural entrypoints
(with an `.expect` panic if the named type is missing), nested lists are
`unimplemented!()`. -/
def resolve_field_value_for_list_type (env : Env) (introspecting : Bool)
    (object_value : Option Value) (field : Field) (field_definition : SField)
    (inner_type : SType) (argument_values : List (String × Value)) :
    Except Panic (Except ExecutionError Value) :=
  match inner_type with
  | .non_null inner =>
      resolve_field_value_for_list_type env introspecting object_value field
        field_definition inner argument_values
  | .named type_name =>
    match get_named_type (active_schema env introspecting) type_name with
    | none => .error (.unwrap_failed "resolve_field_value_for_list_type: named type")
    | some named_type =>
      match named_type with
      | .object t =>
          if introspecting then
            .ok (.ok (env.introspection_resolver.resolve_objects object_value field.name
              field_definition t argument_values))
          else
            .ok (.ok (env.resolver.resolve_objects object_value field.name
              field_definition t argument_values))
      | .enum t =>
          match object_value with
          | some (.object o) =>
              if introspecting then
                .ok (.ok (env.introspection_resolver.resolve_enum_values t (alist_get o field.name)))
              else
                .ok (.ok (env.resolver.resolve_enum_values t (alist_get o field.name)))
          | _ => .ok (.ok .null)
      | .scalar t =>
          match object_value with
          | some (.object o) =>
              if introspecting then
                .ok (.ok (env.introspection_resolver.resolve_scalar_values t (alist_get o field.name)))
              else
                .ok (.ok (env.resolver.resolve_scalar_values t (alist_get o field.name)))
          | _ => .ok (.ok .null)
      | .interface _ => .error (.unimplemented "resolve_field_value_for_list_type: interface")
      | .union _ => .error (.unimplemented "resolve_field_value_for_list_type: union")
      | .input_object _ => .error (.unimplemented "resolve_field_value_for_list_type: other")
  | .list _ => .error (.unimplemented "resolve_field_value_for_list_type: nested list")

/-- Resolves the value of a field (`resolve_field_value`, execution.rs
lines 255-291), peeling the declared type: non-null unwraps and recurses,
named dispatches to the singular path, list to the plural path. -/
def resolve_field_value (env : Env) (introspecting : Bool)
    (object_value : Option Value) (field : Field) (field_definition : SField)
    (field_type : SType) (argument_values : List (String × Value)) :
    Except Panic (Except ExecutionError Value) :=
  match field_type with
  | .non_null inner =>
      resolve_field_value env introspecting object_value field field_definition
        inner argument_values
  | .named name =>
      resolve_field_value_for_named_type env introspecting object_value field
        field_definition name argument_values
  | .list inner =>
      resolve_field_value_for_list_type env introspecting object_value field
        field_definition inner argument_values

/-- Coerces a single argument literal against its declared type
(`coerce_argument_value`, execution.rs lines 645-672), resolving named
types through the active schema; a `None` from the coercion function
becomes `InvalidArgumentError` carrying the rejected literal. -/
def coerce_argument_value (env : Env) (introspecting : Bool) (field : Field)
    (argument : InputValue) (value : Value) : Except ExecutionError Value :=
  match env.coerce_value value argument.value_type
      (fun name => get_named_type (active_schema env introspecting) name) with
  | some coerced => .ok coerced
  | none => .error (.invalid_argument_error field.position argument.name value)

/-- The per-argument-definition loop of `coerce_argument_values`
(execution.rs lines 612-638): a variable literal is `unimplemented!()`; an
absent argument takes the raw schema default if present, fails with
`MissingArgumentError` for a non-null declared type, and is otherwise
omitted; a present literal is coerced. -/
def coerce_arg_loop (env : Env) (introspecting : Bool) (field : Field) :
    List InputValue → List (String × Value) →
    Except Panic (Except ExecutionError (List (String × Value)))
  | [], acc => .ok (.ok acc)
  | argument_def :: rest, acc =>
    match get_argument_value field.arguments argument_def.name with
    | some (.var _) => .error (.unimplemented "coerce_argument_values: variable argument")
    | none =>
        match argument_def.default_value with
        | some default_value =>
            coerce_arg_loop env introspecting field rest
              (alist_insert acc argument_def.name default_value)
        | none =>
            match argument_def.value_type with
            | .non_null _ =>
                .ok (.error (.missing_argument_error field.position argument_def.name))
            | _ => coerce_arg_loop env introspecting field rest acc
    | some v =>
        match coerce_argument_value env introspecting field argument_def v with
        | .error e => .ok (.error e)
        | .ok coerced =>
            coerce_arg_loop env introspecting field rest
              (alist_insert acc argument_def.name coerced)

/-- Coerces the argument literals of a field node into values
(`coerce_argument_values`, execution.rs lines 599-642): one pass over the
argument definitions declared on the field of the given object type. -/
def coerce_argument_values (env : Env) (introspecting : Bool) (ot : ObjectType)
    (field : Field) : Except Panic (Except ExecutionError (List (String × Value))) :=
  match get_argument_definitions ot field.name with
  | none => .ok (.ok [])
  | some argument_definitions => coerce_arg_loop env introspecting field argument_definitions []

/-- Looks up a field definition, probing the introspection schema's root
query fields first when the object type is the user schema's root query
type (`get_field_type`, execution.rs lines 674-691).  A probe hit pairs the
definition with `true`; the user-schema fallback pairs it with the
*current* `introspecting` flag. -/
def get_field_type (env : Env) (introspecting : Bool) (ot : ObjectType)
    (name : String) : Option (SField × Bool) :=
  let probe : Option (SField × Bool) :=
    if (match get_root_query_type env.schema with
        | some root => object_type_beq ot root
        | none => false) then
      match get_root_query_type env.introspection_schema with
      | some intro_root => (get_field_type_on intro_root name).map (fun t => (t, true))
      | none => none
    else none
  match probe with
  | some v => some v
  | none => (get_field_type_on ot name).map (fun t => (t, introspecting))

mutual

/-- Executes a selection set against an object type
(`execute_selection_set`, execution.rs lines 50-95): group the fields,
execute each group in grouped (first-occurrence) order into a key-sorted
`BTreeMap`, and wrap a non-empty map in an object — an empty map yields
`Null`.  The fuel decreases on every call of the family; the source
recursion is unbounded (its depth depends on the resolver's answers), so a
budget is threaded and `.error .out_of_fuel` marks exhaustion. -/
def execute_selection_set (env : Env) :
    Nat → Ctx → SelectionSet → ObjectType → Option Value → Except Panic (Value × Ctx)
  | 0, _, _, _, _ => .error .out_of_fuel
  | fuel + 1, ctx, selection_set, object_type, object_value =>
    match collect_fields env ctx.introspecting object_type selection_set none with
    | .error p => .error p
    | .ok grouped_field_set =>
      match execute_groups env fuel ctx object_type object_value grouped_field_set [] with
      | .error p => .error p
      | .ok (result_map, ctx') =>
          .ok (if result_map.isEmpty then Value.null else Value.object result_map, ctx')

/-- The per-group loop of `execute_selection_set` (execution.rs lines
62-87): look up the field definition by the group's *first* node (probing
introspection at the root), push that node on the field stack and set the
`introspecting` flag, execute the field, record its value — or `Null` plus
the error on failure — under the response key, pop the stack, continue.  A
response key with no field definition is silently dropped. -/
def execute_groups (env : Env) :
    Nat → Ctx → ObjectType → Option Value → List (String × List Field) →
    List (String × Value) → Except Panic (List (String × Value) × Ctx)
  | 0, _, _, _, _, _ => .error .out_of_fuel
  | _ + 1, ctx, _, _, [], result_map => .ok (result_map, ctx)
  | fuel + 1, ctx, object_type, object_value, (response_key, fields) :: rest, result_map =>
    match fields with
    | [] => .error (.index_out_of_bounds "execute_selection_set: fields[0]")
    | f0 :: _ =>
      match get_field_type env ctx.introspecting object_type f0.name with
      | none => execute_groups env fuel ctx object_type object_value rest result_map
      | some (field_def, intro) =>
        match execute_field env fuel
            { ctx with fields := f0 :: ctx.fields, introspecting := intro }
            object_type object_value f0 field_def fields with
        | .error p => .error p
        | .ok (.ok v, ctx₂) =>
            execute_groups env fuel { ctx₂ with fields := ctx₂.fields.tail }
              object_type object_value rest (btree_insert result_map response_key v)
        | .ok (.error e, ctx₂) =>
            execute_groups env fuel
              { ctx₂ with fields := ctx₂.fields.tail, errors := ctx₂.errors ++ [e] }
              object_type object_value rest (btree_insert result_map response_key .null)

/-- Executes one field (`execute_field`, execution.rs lines 230-252):
coerce arguments, resolve the value, complete the value; the first
`Err` short-circuits. -/
def execute_field (env : Env) :
    Nat → Ctx → ObjectType → Option Value → Field → SField → List Field →
    Except Panic ((Except ExecutionError Value) × Ctx)
  | 0, _, _, _, _, _, _ => .error .out_of_fuel
  | fuel + 1, ctx, object_type, object_value, field, field_definition, fields =>
    match coerce_argument_values env ctx.introspecting object_type field with
    | .error p => .error p
    | .ok (.error e) => .ok (.error e, ctx)
    | .ok (.ok argument_values) =>
      match resolve_field_value env ctx.introspecting object_value field
          field_definition field_definition.field_type argument_values with
      | .error p => .error p
      | .ok (.error e) => .ok (.error e, ctx)
      | .ok (.ok value) =>
          complete_value env fuel ctx field field_definition.field_type fields value

/-- Ensures a resolved value matches its declared type (`complete_value`,
execution.rs lines 458-545): a non-null wrapper completes the inner type
and turns a `Null` result into `NonNullError` at the field's position; a
null value of nullable type passes through; a list completes element-wise
(a non-list is `ListValueError`, any element failure fails the whole
field); a named type passes scalars/enums through unchanged, executes the
merged selection set for objects, and resolves interfaces/unions to a
concrete object type first (the named-type `.unwrap()` panics when the
lookup fails). -/
def complete_value (env : Env) :
    Nat → Ctx → Field → SType → List Field → Value →
    Except Panic ((Except ExecutionError Value) × Ctx)
  | 0, _, _, _, _, _ => .error .out_of_fuel
  | fuel + 1, ctx, field, .non_null inner, fields, resolved_value =>
    (match complete_value env fuel ctx field inner fields resolved_value with
     | .error p => .error p
     | .ok (.error e, ctx') => .ok (.error e, ctx')
     | .ok (.ok v, ctx') =>
        match v with
        | .null => .ok (.error (.non_null_error field.position field.name), ctx')
        | _ => .ok (.ok v, ctx'))
  | fuel + 1, ctx, field, .list inner, fields, resolved_value =>
    if resolved_value.is_null then .ok (.ok resolved_value, ctx)
    else
      match resolved_value with
      | .list values =>
          (match complete_list_values env fuel ctx field inner fields values with
           | .error p => .error p
           | .ok (.error e, ctx') => .ok (.error e, ctx')
           | .ok (.ok out, ctx') => .ok (.ok (.list out), ctx'))
      | _ => .ok (.error (.list_value_error field.position field.name), ctx)
  | fuel + 1, ctx, field, .named name, fields, resolved_value =>
    if resolved_value.is_null then .ok (.ok resolved_value, ctx)
    else
      match get_named_type (active_schema env ctx.introspecting) name with
      | none => .error (.unwrap_failed "complete_value: named type")
      | some named_type =>
        match named_type with
        | .scalar _ => .ok (.ok resolved_value, ctx)
        | .enum _ => .ok (.ok resolved_value, ctx)
        | .object object_type =>
            (match merge_selection_sets fields with
             | .error p => .error p
             | .ok merged =>
               match execute_selection_set env fuel ctx merged object_type
                   (some resolved_value) with
               | .error p => .error p
               | .ok (v, ctx') => .ok (.ok v, ctx'))
        | .interface it =>
            (match resolve_abstract_type env ctx.introspecting (.interface it) resolved_value with
             | .error e => .ok (.error e, ctx)
             | .ok object_type =>
               match merge_selection_sets fields with
               | .error p => .error p
               | .ok merged =>
                 match execute_selection_set env fuel ctx merged object_type
                     (some resolved_value) with
                 | .error p => .error p
                 | .ok (v, ctx') => .ok (.ok v, ctx'))
        | .union ut =>
            (match resolve_abstract_type env ctx.introspecting (.union ut) resolved_value with
             | .error e => .ok (.error e, ctx)
             | .ok object_type =>
               match merge_selection_sets fields with
               | .error p => .error p
               | .ok merged =>
                 match execute_selection_set env fuel ctx merged object_type
                     (some resolved_value) with
                 | .error p => .error p
                 | .ok (v, ctx') => .ok (.ok v, ctx'))
        | .input_object _ => .error (.unimplemented "complete_value: other")

/-- The element loop of list completion (the `for value in values` of
`complete_value`): complete each element against the inner type in order,
short-circuiting on the first failure. -/
def complete_list_values (env : Env) :
    Nat → Ctx → Field → SType → List Field → List Value →
    Except Panic ((Except ExecutionError (List Value)) × Ctx)
  | 0, _, _, _, _, _ => .error .out_of_fuel
  | _ + 1, ctx, _, _, _, [] => .ok (.ok [], ctx)
  | fuel + 1, ctx, field, inner, fields, v :: rest =>
    match complete_value env fuel ctx field inner fields v with
    | .error p => .error p
    | .ok (.error e, ctx') => .ok (.error e, ctx')
    | .ok (.ok cv, ctx') =>
      match complete_list_values env fuel ctx' field inner fields rest with
      | .error p => .error p
      | .ok (.error e, ctx'') => .ok (.error e, ctx'')
      | .ok (.ok cvs, ctx'') => .ok (.ok (cv :: cvs), ctx'')

end

/-- Executes the root selection set of a query
(`execute_root_selection_set`, query/mod.rs lines 87-123): build a fresh
context (empty field stack, `introspecting = false`, no errors), execute
against the schema's root query type, and return the value with the
accumulated errors; a missing root query type yields a `Null` value and
exactly one `NoRootQueryObjectType` error.  The introspection schema and
resolver built here per query live in `env`. -/
def execute_root_selection_set (env : Env) (fuel : Nat) (selection_set : SelectionSet)
    (initial_value : Option Value) : Except Panic (Value × List ExecutionError) :=
  match get_root_query_type env.schema with
  | some t =>
    match execute_selection_set env fuel ⟨[], false, []⟩ selection_set t initial_value with
    | .error p => .error p
    | .ok (value, ctx) => .ok (value, ctx.errors)
  | none => .ok (.null, [.no_root_query_object_type])

/-- Prefix a run's accumulated errors with `E` (the shape every member of
the execution family takes when started with `E` already accumulated). -/
def with_errors {α : Type} (E : List ExecutionError) (r : Except Panic (α × Ctx)) :
    Except Panic (α × Ctx) :=
  match r with
  | .error p => .error p
  | .ok (a, c) => .ok (a, { c with errors := E ++ c.errors })

/-- Keys of the result map strictly ascend (the `BTreeMap` invariant). -/
def map_sorted (m : List (String × Value)) : Prop :=
  List.Pairwise (fun a b : String × Value => str_lt a.1 b.1 = true) m

/-- A fixed source position for concrete query nodes. -/
def p0 : Pos := ⟨1, 1⟩

/-- A selection set with a fixed span. -/
def ss_of (items : List Selection) : SelectionSet := .mk (p0, p0) items

/-- A field definition without arguments. -/
def sfield (n : String) (t : SType) : SField := ⟨n, t, []⟩

/-- A resolver whose scalar/enum entrypoints return the parent object's
sub-field unchanged and whose object entrypoints return `Null`. -/
def pass_resolver : Resolver :=
  ⟨fun _ _ _ _ _ => .null, fun _ _ _ _ _ => .null,
   fun _ v => v.getD .null, fun _ v => v.getD .null,
   fun _ v => v.getD .null, fun _ v => v.getD .null,
   fun _ _ _ => none⟩

/-- `type Query { a: String, b: String }`. -/
def query_type_ab : ObjectType :=
  ⟨"Query", [], [sfield "a" (.named "String"), sfield "b" (.named "String")]⟩

/-- The user schema for the two-scalar-fields scenario. -/
def env_ab : Env :=
  ⟨⟨[.object query_type_ab, .scalar ⟨"String"⟩]⟩, ⟨[]⟩, ⟨[]⟩,
   pass_resolver, pass_resolver, fun _ => false, fun _ => true, fun _ _ _ => none⟩

/-- The query field `b`. -/
def field_b : Field := .mk p0 none "b" [] (ss_of [])

/-- The query field `a`. -/
def field_a : Field := .mk p0 none "a" [] (ss_of [])

/-- The parent value `{a: "1", b: "2"}`. -/
def parent_ab : Value := .object [("a", .str "1"), ("b", .str "2")]

/-- The query field `missing`, declared nowhere on `Query`. -/
def field_missing : Field := .mk p0 none "missing" [] (ss_of [])

/-- `type Query { name: String! }`. -/
def query_type_nn : ObjectType :=
  ⟨"Query", [], [sfield "name" (.non_null (.named "String"))]⟩

/-- The environment for the non-null scenario; the resolver resolves every
scalar sub-field of the parent, so a missing sub-field resolves to Null. -/
def env_nn : Env :=
  ⟨⟨[.object query_type_nn, .scalar ⟨"String"⟩]⟩, ⟨[]⟩, ⟨[]⟩,
   pass_resolver, pass_resolver, fun _ => false, fun _ => true, fun _ _ _ => none⟩

/-- The query field `name` (used against `query_type_nn`). -/
def field_name_q : Field := .mk p0 none "name" [] (ss_of [])

/-- The root query type of the (miniature) introspection schema, declaring
the meta-field `__schema`. -/
def intro_query_type : ObjectType := ⟨"Query", [], [sfield "__schema" (.named "IntroData")]⟩

/-- A miniature introspection schema: a root `Query` with `__schema` and
the scalar it resolves to.  It deliberately does *not* declare `String`. -/
def intro_schema : SchemaDocument := ⟨[.object intro_query_type, .scalar ⟨"IntroData"⟩]⟩

/-- The introspection resolver of the scenario: answers every scalar with
`"intro"`. -/
def intro_resolver : Resolver :=
  ⟨fun _ _ _ _ _ => .null, fun _ _ _ _ _ => .null,
   fun _ _ => .str "intro", fun _ _ => .null,
   fun _ _ => .str "intro", fun _ _ => .null,
   fun _ _ _ => none⟩

/-- `type Query { name: String }` — the user schema's root. -/
def user_query_c3 : ObjectType := ⟨"Query", [], [sfield "name" (.named "String")]⟩

/-- User schema with `name`, overlaid by the miniature introspection
schema. -/
def env_c3 : Env :=
  ⟨⟨[.object user_query_c3, .scalar ⟨"String"⟩]⟩, intro_schema, ⟨[]⟩,
   pass_resolver, intro_resolver, fun _ => false, fun _ => true, fun _ _ _ => none⟩

/-- The query field `__schema`. -/
def field_schema_q : Field := .mk p0 none "__schema" [] (ss_of [])

/-- The parent value `{name: "Jordi"}`. -/
def parent_c3 : Value := .object [("name", .str "Jordi")]

/-- Element-wise application of a coercion over a list literal, failing as
a whole when any element fails. -/
def option_coerce_list (f : Value → Option Value) : List Value → Option (List Value)
  | [] => some []
  | v :: vs =>
    match f v with
    | none => none
    | some cv =>
      match option_coerce_list f vs with
      | none => none
      | some cvs => some (cv :: cvs)

/-- Modelled from the spec: the literal-to-value coercion function of
`values/coercion.rs` (§6, §4.5) — type-directed, "parameterized by a
named-type resolver callback", converting AST literals per the declared
type and failing (None) on a mismatched literal.  A non-null wrapper
rejects Null and recurses; a list coerces element-wise; a named scalar
accepts exactly the literal kind of the built-in scalar it names; an enum
accepts an enum literal; anything else is rejected. -/
def spec_coerce_value : SType → (String → Option TypeDefinition) → Value → Option Value
  | .non_null inner, resolver, v =>
    match v with
    | .null => none
    | _ => spec_coerce_value inner resolver v
  | .list inner, resolver, v =>
    match v with
    | .list vs => (option_coerce_list (spec_coerce_value inner resolver) vs).map .list
    | _ => none
  | .named n, resolver, v =>
    match resolver n with
    | some (.scalar s) =>
      match s.name, v with
      | "Int", .int _ => some v
      | "String", .str _ => some v
      | "Boolean", .boolean _ => some v
      | _, _ => none
    | some (.enum _) =>
      match v with
      | .enum _ => some v
      | _ => none
    | _ => none

/-- `type Query { f(n: Int = "abc"): String }` — the default literal is a
string although the argument type is `Int`. -/
def query_type_c5 : ObjectType :=
  ⟨"Query", [], [⟨"f", .named "String", [⟨"n", .named "Int", some (.str "abc")⟩]⟩]⟩

/-- Environment for the argument-default scenario, using the spec-modelled
coercion function. -/
def env_c5 : Env :=
  ⟨⟨[.object query_type_c5, .scalar ⟨"String"⟩, .scalar ⟨"Int"⟩]⟩, ⟨[]⟩, ⟨[]⟩,
   pass_resolver, pass_resolver, fun _ => false, fun _ => true,
   fun v t r => spec_coerce_value t r v⟩

/-- The query field `f` with the argument omitted. -/
def field_f_omit : Field := .mk p0 none "f" [] (ss_of [])

/-- The query field `f(n: "abc")` — the default literal supplied
explicitly. -/
def field_f_expl : Field := .mk p0 none "f" [("n", .str "abc")] (ss_of [])

/-- The query field `x`. -/
def field_x : Field := .mk p0 none "x" [] (ss_of [])

/-- A cyclic document: `fragment F on Query { x ...F }`. -/
def doc_cyc : Document := ⟨[⟨"F", .on "Query", ss_of [.field field_x, .fragment_spread "F"]⟩]⟩

/-- `type Query { x: String }`. -/
def query_type_cyc : ObjectType := ⟨"Query", [], [sfield "x" (.named "String")]⟩

/-- Environment with the cyclic fragment document. -/
def env_cyc : Env :=
  ⟨⟨[.object query_type_cyc, .scalar ⟨"String"⟩]⟩, ⟨[]⟩, doc_cyc,
   pass_resolver, pass_resolver, fun _ => false, fun _ => true, fun _ _ _ => none⟩

/-- Modelled from the claim's words (refinement reference): a type
condition applies to a concrete object type exactly when it names that
same object type, an interface the object type implements, or a union
listing the object type among its members. -/
def fragment_applies_spec (schema : SchemaDocument) (ot : ObjectType)
    (cond : TypeCondition) : Bool :=
  match cond with
  | .on name =>
    match get_named_type schema name with
    | some (.object o) => object_type_beq ot o
    | some (.interface it) => ot.implements_interfaces.contains it.name
    | some (.union ut) => ut.types.contains ot.name
    | _ => false

/-- `type Other` (an object type the fragments below may or may not match). -/
def other_type : ObjectType := ⟨"Other", [], []⟩

/-- Fragments `G on Other { x }` (not applying to `Query`) and
`H on Query { x }` (applying). -/
def doc_c8 : Document :=
  ⟨[⟨"G", .on "Other", ss_of [.field field_x]⟩,
    ⟨"H", .on "Query", ss_of [.field field_x]⟩]⟩

/-- Environment with the two fragments and both object types in scope. -/
def env_c8 : Env :=
  ⟨⟨[.object query_type_cyc, .object other_type, .scalar ⟨"String"⟩]⟩, ⟨[]⟩, doc_c8,
   pass_resolver, pass_resolver, fun _ => false, fun _ => true, fun _ _ _ => none⟩

/-- In-order concatenation of the sub-selections of a group of field nodes
(the claim's description of what `merge_selection_sets` gathers). -/
def concat_sub_selections : List Field → List Selection
  | [] => []
  | f :: rest => f.selection_set.items ++ concat_sub_selections rest

/-- One step of the fold inside `merge_selection_sets`: extend the span
hull and append the field's sub-selections. -/
def merge_step (acc : Option (Pos × Pos) × List Selection) (field : Field) :
    Option (Pos × Pos) × List Selection :=
  ( match acc.1 with
    | none => some field.selection_set.span
    | some (s, e) =>
        some (pos_min s field.selection_set.span.1, pos_max e field.selection_set.span.2)
  , acc.2 ++ field.selection_set.items)

/-- An interface type `I`, a union type `U`, and a variable-valued
argument, for exercising the unimplemented branches. -/
def iface_I : InterfaceType := ⟨"I", [sfield "x" (.named "String")]⟩

/-- A union type listing `Query`. -/
def union_U : UnionType := ⟨"U", ["Query"]⟩

/-- Environment whose schema also declares the interface and the union. -/
def env_c9 : Env :=
  ⟨⟨[.object query_type_cyc, .interface iface_I, .union union_U, .scalar ⟨"String"⟩]⟩,
   ⟨[]⟩, ⟨[]⟩, pass_resolver, pass_resolver, fun _ => false, fun _ => true, fun _ _ _ => none⟩

/-- A field node passing a variable as an argument value: `f(n: $v)`. -/
def field_var : Field := .mk p0 none "f" [("n", .var "v")] (ss_of [])

theorem length_filter_le_of_imp {α : Type} (p q : α → Bool)
    (h : ∀ a, p a = true → q a = true) (l : List α) :
    (l.filter p).length ≤ (l.filter q).length :=
  (List.monotone_filter_right l h).length_le

theorem length_filter_lt_of_imp_of_mem {α : Type} (p q : α → Bool)
    (h : ∀ a, p a = true → q a = true) {a : α} {l : List α}
    (ha : a ∈ l) (hpa : p a = false) (hqa : q a = true) :
    (l.filter p).length < (l.filter q).length := by
  induction l with
  | nil => cases ha
  | cons b l ih =>
    rcases List.mem_cons.mp ha with rfl | hmem
    · rw [List.filter_cons_of_neg (by simp [hpa]), List.filter_cons_of_pos (by simp [hqa])]
      exact Nat.lt_succ_of_le (length_filter_le_of_imp p q h l)
    · by_cases hb : p b = true
      · rw [List.filter_cons_of_pos (by simp [hb]), List.filter_cons_of_pos (by simp [h b hb])]
        simpa using ih hmem
      · rw [List.filter_cons_of_neg (by simpa using hb)]
        by_cases hqb : q b = true
        · rw [List.filter_cons_of_pos (by simp [hqb])]
          exact Nat.lt_succ_of_lt (ih hmem)
        · rw [List.filter_cons_of_neg (by simpa using hqb)]
          exact ih hmem

theorem unvisited_count_cons_le (doc : Document) (n : String) (visited : List String) :
    unvisited_count doc (n :: visited) ≤ unvisited_count doc visited := by
  apply length_filter_le_of_imp
  intro a hpa
  simp only [List.contains_cons, Bool.not_eq_true', Bool.or_eq_false_iff] at hpa
  simpa using hpa.2

theorem unvisited_count_cons_lt (doc : Document) {n : String} {visited : List String}
    (hn : n ∈ fragment_names doc) (hv : visited.contains n = false) :
    unvisited_count doc (n :: visited) < unvisited_count doc visited := by
  apply length_filter_lt_of_imp_of_mem _ _ _ hn
  · simp
  · simpa using hv
  · intro a hpa
    simp only [List.contains_cons, Bool.not_eq_true', Bool.or_eq_false_iff] at hpa
    simpa using hpa.2

theorem mem_fragment_names_of_get_fragment {doc : Document} {name : String}
    {frag : FragmentDefinition} (h : get_fragment doc name = some frag) :
    name ∈ fragment_names doc := by
  have hmem := List.mem_of_find?_eq_some h
  have hname : frag.name = name := by
    have := List.find?_some h
    simpa using this
  exact hname ▸ List.mem_map_of_mem (fun fr => fr.name) hmem

theorem not_mem_fragment_names_of_get_fragment_none {doc : Document} {name : String}
    (h : get_fragment doc name = none) : name ∉ fragment_names doc := by
  intro hmem
  rcases List.mem_map.mp hmem with ⟨fr, hfr, hname⟩
  have := List.find?_eq_none.mp h fr hfr
  simp [hname] at this

theorem unvisited_count_cons_eq_of_not_mem (doc : Document) {n : String}
    (visited : List String) (hn : n ∉ fragment_names doc) :
    unvisited_count doc (n :: visited) = unvisited_count doc visited := by
  unfold unvisited_count
  congr 1
  apply List.filter_congr
  intro a ha
  have hae : (a == n) = false := by
    cases hbe : a == n
    · rfl
    · exact absurd (eq_of_beq hbe ▸ ha) hn
  simp only [List.contains_cons, hae, Bool.false_or]

theorem frags_weight_cons (env : Env) (fr : FragmentDefinition)
    (rest : List FragmentDefinition) (visited : List String) :
    frags_weight env (fr :: rest) visited
      = (if visited.contains fr.name then 0
         else (filter_selections env fr.selection_set.items).length + 1)
        + frags_weight env rest visited := rfl

theorem frags_weight_cons_le (env : Env) (frs : List FragmentDefinition)
    (n : String) (visited : List String) :
    frags_weight env frs (n :: visited) ≤ frags_weight env frs visited := by
  induction frs with
  | nil => exact Nat.le_refl _
  | cons fr rest ih =>
    rw [frags_weight_cons, frags_weight_cons, List.contains_cons]
    cases hn : fr.name == n <;> cases hv : visited.contains fr.name <;>
      simp only [Bool.or_false, Bool.or_true, if_true, if_false, Bool.false_eq_true,
        Bool.true_eq_false, ite_true, ite_false] <;> omega

theorem frags_weight_found_le (env : Env) {frs : List FragmentDefinition}
    {name : String} {frag : FragmentDefinition} {visited : List String}
    (hfind : frs.find? (fun fr => fr.name == name) = some frag)
    (hvis : visited.contains name = false) :
    (filter_selections env frag.selection_set.items).length + 1
      + frags_weight env frs (name :: visited) ≤ frags_weight env frs visited := by
  induction frs with
  | nil => simp at hfind
  | cons fr rest ih =>
    cases hn : fr.name == name
    · rw [List.find?_cons, hn] at hfind
      have hfind' : rest.find? (fun fr => fr.name == name) = some frag := hfind
      have hrec := ih hfind'
      rw [frags_weight_cons, frags_weight_cons, List.contains_cons, hn, Bool.false_or]
      cases hv : visited.contains fr.name <;>
        simp only [if_true, if_false, Bool.false_eq_true, Bool.true_eq_false,
          ite_true, ite_false] <;> omega
    · rw [List.find?_cons, hn] at hfind
      have hfr : fr = frag := by
        have : some fr = some frag := hfind
        injection this
      subst hfr
      have hname : fr.name = name := eq_of_beq hn
      rw [frags_weight_cons, frags_weight_cons, List.contains_cons, hname, hvis,
        beq_self_eq_true, Bool.true_or]
      have := frags_weight_cons_le env rest name visited
      simp only [if_true, if_false, Bool.false_eq_true, ite_true, ite_false]
      omega

theorem collect_measure_cons (env : Env) (s : Selection) (rest : List Selection)
    (visited : List String) :
    collect_measure env (s :: rest) visited = collect_measure env rest visited + 1 := by
  simp only [collect_measure, List.length_cons]
  omega

theorem collect_measure_cons_visit (env : Env) (s : Selection) (rest : List Selection)
    (name : String) (visited : List String) :
    collect_measure env rest (name :: visited) + 1 ≤ collect_measure env (s :: rest) visited := by
  have := frags_weight_cons_le env env.document.fragments name visited
  simp only [collect_measure, List.length_cons]
  omega

theorem collect_measure_sub (env : Env) (s : Selection) (rest : List Selection)
    {name : String} {frag : FragmentDefinition} {visited : List String}
    (hfind : get_fragment env.document name = some frag)
    (hvis : visited.contains name = false) :
    collect_measure env (filter_selections env frag.selection_set.items) (name :: visited) + 1
      ≤ collect_measure env (s :: rest) visited := by
  have := frags_weight_found_le env hfind hvis
  simp only [collect_measure, List.length_cons]
  omega

/-- Fuel irrelevance: any budget at least the measure computes the same
result as the canonical budget, so `collect_loop` is the semantics of the
source's unbounded recursion. -/
theorem collect_step_canon (env : Env) (introspecting : Bool) (ot : ObjectType) :
    ∀ fuel items grouped visited,
      collect_measure env items visited + 1 ≤ fuel →
      collect_step env introspecting ot fuel items grouped visited
        = collect_loop env introspecting ot items grouped visited := by
  intro fuel
  induction fuel using Nat.strong_induction_on with
  | _ fuel ih =>
    intro items grouped visited hle
    match fuel, hle with
    | fuel + 1, hle =>
      have hμ : collect_measure env items visited ≤ fuel := by omega
      match items with
      | [] => rfl
      | .field f :: rest =>
          have hmc := collect_measure_cons env (.field f) rest visited
          show collect_step env introspecting ot fuel rest _ visited
            = collect_step env introspecting ot (collect_measure env (.field f :: rest) visited + 1)
                (.field f :: rest) grouped visited
          rw [ih fuel (by omega) rest _ visited (by omega)]
          have : collect_step env introspecting ot
              (collect_measure env (.field f :: rest) visited + 1) (.field f :: rest) grouped visited
            = collect_step env introspecting ot (collect_measure env (.field f :: rest) visited)
                rest (group_push grouped (get_response_key f) f) visited := by
            rw [hmc]
            rfl
          rw [this, ih (collect_measure env (.field f :: rest) visited) (by omega) rest _ visited (by omega)]
      | .fragment_spread name :: rest =>
          have hmc := collect_measure_cons env (.fragment_spread name) rest visited
          show (if visited.contains name then _ else _) = collect_loop env introspecting ot _ grouped visited
          cases hvis : visited.contains name
          · simp only [Bool.false_eq_true, if_false]
            have hvc := collect_measure_cons_visit env (.fragment_spread name) rest name visited
            cases hfrag : get_fragment env.document name
            · rw [ih fuel (by omega) rest grouped (name :: visited) (by omega)]
              have : collect_loop env introspecting ot (.fragment_spread name :: rest) grouped visited
                  = collect_step env introspecting ot (collect_measure env (.fragment_spread name :: rest) visited)
                      rest grouped (name :: visited) := by
                show collect_step env introspecting ot
                    (collect_measure env (.fragment_spread name :: rest) visited + 1) _ grouped visited = _
                rw [show collect_measure env (.fragment_spread name :: rest) visited + 1
                    = (collect_measure env (.fragment_spread name :: rest) visited) + 1 from rfl]
                show (if visited.contains name then _ else _) = _
                rw [hvis]
                simp only [Bool.false_eq_true, if_false]
                rw [hfrag]
              rw [this, ih (collect_measure env (.fragment_spread name :: rest) visited) (by omega)
                rest grouped (name :: visited) (by omega)]
            · case _ frag =>
              have hsub := collect_measure_sub env (.fragment_spread name) rest hfrag hvis
              show (if does_fragment_type_apply env introspecting ot frag.type_condition then
                  match collect_step env introspecting ot fuel
                      (filter_selections env frag.selection_set.items) [] (name :: visited) with
                  | .error p => .error p
                  | .ok sub => collect_step env introspecting ot fuel rest
                      (merge_grouped grouped sub) (name :: visited)
                else collect_step env introspecting ot fuel rest grouped (name :: visited)) = _
              have hR : collect_loop env introspecting ot (.fragment_spread name :: rest) grouped visited
                  = (if does_fragment_type_apply env introspecting ot frag.type_condition then
                      match collect_step env introspecting ot
                          (collect_measure env (.fragment_spread name :: rest) visited)
                          (filter_selections env frag.selection_set.items) [] (name :: visited) with
                      | .error p => .error p
                      | .ok sub => collect_step env introspecting ot
                          (collect_measure env (.fragment_spread name :: rest) visited)
                          rest (merge_grouped grouped sub) (name :: visited)
                    else collect_step env introspecting ot
                        (collect_measure env (.fragment_spread name :: rest) visited)
                        rest grouped (name :: visited)) := by
                show (if visited.contains name then _ else _) = _
                rw [hvis]
                simp only [Bool.false_eq_true, if_false]
                rw [hfrag]
              rw [hR]
              cases happ : does_fragment_type_apply env introspecting ot frag.type_condition
              · simp only [Bool.false_eq_true, if_false]
                rw [ih fuel (by omega) rest grouped (name :: visited) (by omega),
                  ih (collect_measure env (.fragment_spread name :: rest) visited) (by omega)
                    rest grouped (name :: visited) (by omega)]
              · simp only [if_true]
                rw [ih fuel (by omega) (filter_selections env frag.selection_set.items) [] (name :: visited) (by omega),
                  ih (collect_measure env (.fragment_spread name :: rest) visited) (by omega)
                    (filter_selections env frag.selection_set.items) [] (name :: visited) (by omega)]
                cases hsubr : collect_loop env introspecting ot
                    (filter_selections env frag.selection_set.items) [] (name :: visited)
                · rfl
                · case _ sub =>
                  show collect_step env introspecting ot fuel rest (merge_grouped grouped sub) (name :: visited)
                    = collect_step env introspecting ot
                        (collect_measure env (.fragment_spread name :: rest) visited)
                        rest (merge_grouped grouped sub) (name :: visited)
                  rw [ih fuel (by omega) rest (merge_grouped grouped sub) (name :: visited) (by omega),
                    ih (collect_measure env (.fragment_spread name :: rest) visited) (by omega)
                      rest (merge_grouped grouped sub) (name :: visited) (by omega)]
          · simp only [if_true]
            rw [ih fuel (by omega) rest grouped visited (by omega)]
            have : collect_loop env introspecting ot (.fragment_spread name :: rest) grouped visited
                = collect_step env introspecting ot
                    (collect_measure env (.fragment_spread name :: rest) visited) rest grouped visited := by
              show (if visited.contains name then _ else _) = _
              rw [hvis]
              simp only [if_true]
            rw [this, ih (collect_measure env (.fragment_spread name :: rest) visited) (by omega)
              rest grouped visited (by omega)]
      | .inline_fragment :: rest => rfl

/-- The recursion equation of the `collect_fields` loop, stated entirely at
the canonical budget: this is the loop of execution.rs lines 115-178 as a
self-contained recurrence. -/
theorem collect_loop_eq (env : Env) (introspecting : Bool) (ot : ObjectType)
    (items : List Selection) (grouped : List (String × List Field))
    (visited : List String) :
    collect_loop env introspecting ot items grouped visited =
      match items with
      | [] => .ok grouped
      | .field f :: rest =>
          collect_loop env introspecting ot rest
            (group_push grouped (get_response_key f) f) visited
      | .fragment_spread name :: rest =>
          if visited.contains name then
            collect_loop env introspecting ot rest grouped visited
          else
            match get_fragment env.document name with
            | none => collect_loop env introspecting ot rest grouped (name :: visited)
            | some frag =>
                if does_fragment_type_apply env introspecting ot frag.type_condition then
                  match collect_loop env introspecting ot
                      (filter_selections env frag.selection_set.items) [] (name :: visited) with
                  | .error p => .error p
                  | .ok sub =>
                      collect_loop env introspecting ot rest
                        (merge_grouped grouped sub) (name :: visited)
                else
                  collect_loop env introspecting ot rest grouped (name :: visited)
      | .inline_fragment :: _ => .error (.unimplemented "collect_fields: inline fragment") := by
  match items with
  | [] => rfl
  | .field f :: rest =>
      have hmc := collect_measure_cons env (.field f) rest visited
      show collect_step env introspecting ot (collect_measure env (.field f :: rest) visited)
          rest (group_push grouped (get_response_key f) f) visited = _
      rw [collect_step_canon env introspecting ot _ rest _ visited (by omega)]
  | .fragment_spread name :: rest =>
      have hmc := collect_measure_cons env (.fragment_spread name) rest visited
      have hvc := collect_measure_cons_visit env (.fragment_spread name) rest name visited
      show (if visited.contains name then
            collect_step env introspecting ot (collect_measure env (.fragment_spread name :: rest) visited)
              rest grouped visited
          else _)
        = (if visited.contains name then
            collect_loop env introspecting ot rest grouped visited
          else
            match get_fragment env.document name with
            | none => collect_loop env introspecting ot rest grouped (name :: visited)
            | some frag =>
                if does_fragment_type_apply env introspecting ot frag.type_condition then
                  match collect_loop env introspecting ot
                      (filter_selections env frag.selection_set.items) [] (name :: visited) with
                  | .error p => .error p
                  | .ok sub =>
                      collect_loop env introspecting ot rest
                        (merge_grouped grouped sub) (name :: visited)
                else
                  collect_loop env introspecting ot rest grouped (name :: visited))
      cases hvis : visited.contains name
      · simp only [Bool.false_eq_true, if_false]
        cases hfrag : get_fragment env.document name
        · show collect_step env introspecting ot
              (collect_measure env (.fragment_spread name :: rest) visited)
              rest grouped (name :: visited) = _
          rw [collect_step_canon env introspecting ot _ rest grouped (name :: visited) (by omega)]
        · case _ frag =>
          have hsub := collect_measure_sub env (.fragment_spread name) rest hfrag hvis
          show (if does_fragment_type_apply env introspecting ot frag.type_condition then
              match collect_step env introspecting ot
                  (collect_measure env (.fragment_spread name :: rest) visited)
                  (filter_selections env frag.selection_set.items) [] (name :: visited) with
              | .error p => .error p
              | .ok sub => collect_step env introspecting ot
                  (collect_measure env (.fragment_spread name :: rest) visited)
                  rest (merge_grouped grouped sub) (name :: visited)
            else collect_step env introspecting ot
                (collect_measure env (.fragment_spread name :: rest) visited)
                rest grouped (name :: visited))
            = (if does_fragment_type_apply env introspecting ot frag.type_condition then
                match collect_loop env introspecting ot
                    (filter_selections env frag.selection_set.items) [] (name :: visited) with
                | .error p => .error p
                | .ok sub =>
                    collect_loop env introspecting ot rest
                      (merge_grouped grouped sub) (name :: visited)
              else
                collect_loop env introspecting ot rest grouped (name :: visited))
          cases happ : does_fragment_type_apply env introspecting ot frag.type_condition
          · simp only [Bool.false_eq_true, if_false]
            rw [collect_step_canon env introspecting ot _ rest grouped (name :: visited) (by omega)]
          · simp only [if_true]
            rw [collect_step_canon env introspecting ot _
              (filter_selections env frag.selection_set.items) [] (name :: visited) (by omega)]
            cases hsubr : collect_loop env introspecting ot
                (filter_selections env frag.selection_set.items) [] (name :: visited)
            · rfl
            · case _ sub =>
              show collect_step env introspecting ot
                  (collect_measure env (.fragment_spread name :: rest) visited)
                  rest (merge_grouped grouped sub) (name :: visited) = _
              rw [collect_step_canon env introspecting ot _ rest
                (merge_grouped grouped sub) (name :: visited) (by omega)]
      · simp only [if_true]
        rw [collect_step_canon env introspecting ot _ rest grouped visited (by omega)]
  | .inline_fragment :: rest => rfl

/-- The `collect_fields` loop never exhausts its budget: the visited-set
cycle guard makes the recursion well-founded for every document, including
cyclically spreading fragments. -/
theorem collect_loop_no_out_of_fuel (env : Env) (introspecting : Bool) (ot : ObjectType) :
    ∀ μ items grouped visited, collect_measure env items visited = μ →
      collect_loop env introspecting ot items grouped visited ≠ .error .out_of_fuel := by
  intro μ
  induction μ using Nat.strong_induction_on with
  | _ μ ih =>
    intro items grouped visited hμ
    rw [collect_loop_eq]
    match items with
    | [] => simp
    | .field f :: rest =>
        have hmc := collect_measure_cons env (.field f) rest visited
        exact ih (collect_measure env rest visited) (by omega) rest _ visited rfl
    | .fragment_spread name :: rest =>
        have hmc := collect_measure_cons env (.fragment_spread name) rest visited
        have hvc := collect_measure_cons_visit env (.fragment_spread name) rest name visited
        show (if visited.contains name then
              collect_loop env introspecting ot rest grouped visited
            else
              match get_fragment env.document name with
              | none => collect_loop env introspecting ot rest grouped (name :: visited)
              | some frag =>
                  if does_fragment_type_apply env introspecting ot frag.type_condition then
                    match collect_loop env introspecting ot
                        (filter_selections env frag.selection_set.items) [] (name :: visited) with
                    | .error p => .error p
                    | .ok sub =>
                        collect_loop env introspecting ot rest
                          (merge_grouped grouped sub) (name :: visited)
                  else
                    collect_loop env introspecting ot rest grouped (name :: visited))
          ≠ .error .out_of_fuel
        cases hvis : visited.contains name
        · simp only [Bool.false_eq_true, if_false]
          cases hfrag : get_fragment env.document name
          · exact ih (collect_measure env rest (name :: visited)) (by omega) rest grouped
              (name :: visited) rfl
          · case _ frag =>
            have hsub := collect_measure_sub env (.fragment_spread name) rest hfrag hvis
            show (if does_fragment_type_apply env introspecting ot frag.type_condition then
                match collect_loop env introspecting ot
                    (filter_selections env frag.selection_set.items) [] (name :: visited) with
                | .error p => .error p
                | .ok sub =>
                    collect_loop env introspecting ot rest
                      (merge_grouped grouped sub) (name :: visited)
              else collect_loop env introspecting ot rest grouped (name :: visited))
              ≠ .error .out_of_fuel
            cases happ : does_fragment_type_apply env introspecting ot frag.type_condition
            · simp only [Bool.false_eq_true, if_false]
              exact ih (collect_measure env rest (name :: visited)) (by omega) rest grouped
                (name :: visited) rfl
            · simp only [if_true]
              cases hsubr : collect_loop env introspecting ot
                  (filter_selections env frag.selection_set.items) [] (name :: visited)
              · case _ p =>
                have hne := ih (collect_measure env
                    (filter_selections env frag.selection_set.items) (name :: visited))
                  (by omega) (filter_selections env frag.selection_set.items) [] (name :: visited) rfl
                rw [hsubr] at hne
                exact hne
              · exact ih (collect_measure env rest (name :: visited)) (by omega) rest _
                  (name :: visited) rfl
        · simp only [if_true]
          exact ih (collect_measure env rest visited) (by omega) rest grouped visited rfl
    | .inline_fragment :: rest => simp

theorem with_errors_nil {α : Type} (r : Except Panic (α × Ctx)) : with_errors [] r = r := by
  match r with
  | .error p => rfl
  | .ok (a, c) => rfl

theorem with_errors_comp {α : Type} (E F : List ExecutionError)
    (r : Except Panic (α × Ctx)) :
    with_errors E (with_errors F r) = with_errors (E ++ F) r := by
  match r with
  | .error p => rfl
  | .ok (a, c) =>
    simp only [with_errors, List.append_assoc]

/-- The error accumulator is write-only: every member of the execution
family started with accumulated errors `E` behaves exactly as started with
no errors, except that `E` stays as prefix of the final error list.  In
particular the produced values never depend on previously recorded
errors. -/
theorem errors_frame : ∀ fuel : Nat,
    (∀ (env : Env) (ctx : Ctx) (ss : SelectionSet) (ot : ObjectType) (ov : Option Value),
      execute_selection_set env fuel ctx ss ot ov
        = with_errors ctx.errors
            (execute_selection_set env fuel { ctx with errors := [] } ss ot ov))
    ∧ (∀ (env : Env) (ctx : Ctx) (ot : ObjectType) (ov : Option Value)
        (gs : List (String × List Field)) (m : List (String × Value)),
      execute_groups env fuel ctx ot ov gs m
        = with_errors ctx.errors
            (execute_groups env fuel { ctx with errors := [] } ot ov gs m))
    ∧ (∀ (env : Env) (ctx : Ctx) (ot : ObjectType) (ov : Option Value) (f : Field)
        (d : SField) (fs : List Field),
      execute_field env fuel ctx ot ov f d fs
        = with_errors ctx.errors
            (execute_field env fuel { ctx with errors := [] } ot ov f d fs))
    ∧ (∀ (env : Env) (ctx : Ctx) (f : Field) (t : SType) (fs : List Field) (v : Value),
      complete_value env fuel ctx f t fs v
        = with_errors ctx.errors
            (complete_value env fuel { ctx with errors := [] } f t fs v))
    ∧ (∀ (env : Env) (ctx : Ctx) (f : Field) (t : SType) (fs : List Field) (vs : List Value),
      complete_list_values env fuel ctx f t fs vs
        = with_errors ctx.errors
            (complete_list_values env fuel { ctx with errors := [] } f t fs vs)) := by
  intro fuel
  induction fuel with
  | zero => exact ⟨fun _ _ _ _ _ => rfl, fun _ _ _ _ _ _ => rfl, fun _ _ _ _ _ _ _ => rfl,
      fun _ _ _ _ _ _ => rfl, fun _ _ _ _ _ _ => rfl⟩
  | succ fuel ih =>
    obtain ⟨ih_ess, ih_eg, ih_ef, ih_cv, ih_cl⟩ := ih
    refine ⟨?_, ?_, ?_, ?_, ?_⟩
    · intro env ctx ss ot ov
      cases hc : collect_fields env ctx.introspecting ot ss none with
      | error p => simp only [execute_selection_set, hc, with_errors]
      | ok grouped =>
        simp only [execute_selection_set, hc]
        rw [ih_eg env ctx ot ov grouped []]
        cases hg : execute_groups env fuel { ctx with errors := [] } ot ov grouped [] with
        | error p => rfl
        | ok r =>
          obtain ⟨m, c⟩ := r
          rfl
    · intro env ctx ot ov gs m
      match gs with
      | [] => simp [execute_groups, with_errors]
      | (key, fields) :: rest =>
        match fields with
        | [] => rfl
        | f0 :: tl =>
          cases hd : get_field_type env ctx.introspecting ot f0.name with
          | none =>
            simp only [execute_groups, hd]
            exact ih_eg env ctx ot ov rest m
          | some fd =>
            obtain ⟨field_def, intro⟩ := fd
            simp only [execute_groups, hd]
            rw [ih_ef env { ctx with fields := f0 :: ctx.fields, introspecting := intro }
              ot ov f0 field_def (f0 :: tl)]
            cases hf : execute_field env fuel
                { ctx with fields := f0 :: ctx.fields, introspecting := intro, errors := [] }
                ot ov f0 field_def (f0 :: tl) with
            | error p => rfl
            | ok r =>
              obtain ⟨rv, c₂⟩ := r
              cases rv with
              | ok v =>
                show execute_groups env fuel
                    ⟨c₂.fields.tail, c₂.introspecting, ctx.errors ++ c₂.errors⟩
                    ot ov rest (btree_insert m key v)
                  = with_errors ctx.errors
                      (execute_groups env fuel ⟨c₂.fields.tail, c₂.introspecting, c₂.errors⟩
                        ot ov rest (btree_insert m key v))
                have h1 := ih_eg env ⟨c₂.fields.tail, c₂.introspecting, c₂.errors⟩
                  ot ov rest (btree_insert m key v)
                have h2 := ih_eg env ⟨c₂.fields.tail, c₂.introspecting, ctx.errors ++ c₂.errors⟩
                  ot ov rest (btree_insert m key v)
                dsimp only [] at h1 h2
                rw [h1, h2, with_errors_comp]
              | error e =>
                show execute_groups env fuel
                    ⟨c₂.fields.tail, c₂.introspecting, (ctx.errors ++ c₂.errors) ++ [e]⟩
                    ot ov rest (btree_insert m key .null)
                  = with_errors ctx.errors
                      (execute_groups env fuel
                        ⟨c₂.fields.tail, c₂.introspecting, c₂.errors ++ [e]⟩
                        ot ov rest (btree_insert m key .null))
                have h1 := ih_eg env ⟨c₂.fields.tail, c₂.introspecting, c₂.errors ++ [e]⟩
                  ot ov rest (btree_insert m key .null)
                have h2 := ih_eg env
                  ⟨c₂.fields.tail, c₂.introspecting, (ctx.errors ++ c₂.errors) ++ [e]⟩
                  ot ov rest (btree_insert m key .null)
                dsimp only [] at h1 h2
                rw [h1, h2, with_errors_comp, List.append_assoc]
    · intro env ctx ot ov f d fs
      cases hc : coerce_argument_values env ctx.introspecting ot f with
      | error p => simp only [execute_field, hc, with_errors]
      | ok r =>
        cases r with
        | error e =>
          simp only [execute_field, hc, with_errors]
          simp
        | ok args =>
          cases hr : resolve_field_value env ctx.introspecting ov f d d.field_type args with
          | error p => simp only [execute_field, hc, hr, with_errors]
          | ok r₂ =>
            cases r₂ with
            | error e =>
              simp only [execute_field, hc, hr, with_errors]
              simp
            | ok v =>
              simp only [execute_field, hc, hr]
              exact ih_cv env ctx f d.field_type fs v
    · intro env ctx f t fs v
      match t with
      | .non_null inner =>
        simp only [complete_value]
        rw [ih_cv env ctx f inner fs v]
        cases hr : complete_value env fuel { ctx with errors := [] } f inner fs v with
        | error p => rfl
        | ok r =>
          obtain ⟨rv, c'⟩ := r
          match rv with
          | .error e => rfl
          | .ok w =>
            match w with
            | .null => rfl
            | .var s => rfl
            | .int i => rfl
            | .str s => rfl
            | .boolean b => rfl
            | .enum s => rfl
            | .list vs => rfl
            | .object fields => rfl
      | .list inner =>
        cases hn : v.is_null with
        | true =>
          simp [complete_value, hn, with_errors]
        | false =>
          match v with
          | .list vs =>
            simp only [complete_value, hn, Bool.false_eq_true, if_false]
            rw [ih_cl env ctx f inner fs vs]
            cases hr : complete_list_values env fuel { ctx with errors := [] } f inner fs vs with
            | error p => rfl
            | ok r =>
              obtain ⟨rv, c'⟩ := r
              match rv with
              | .error e => rfl
              | .ok out => rfl
          | .var s => simp [complete_value, hn, with_errors]
          | .int i => simp [complete_value, hn, with_errors]
          | .str s => simp [complete_value, hn, with_errors]
          | .boolean b => simp [complete_value, hn, with_errors]
          | .null => simp [Value.is_null] at hn
          | .enum s => simp [complete_value, hn, with_errors]
          | .object o => simp [complete_value, hn, with_errors]
      | .named name =>
        cases hn : v.is_null with
        | true =>
          simp [complete_value, hn, with_errors]
        | false =>
          cases hm : get_named_type (active_schema env ctx.introspecting) name with
          | none => simp only [complete_value, hn, Bool.false_eq_true, if_false, hm, with_errors]
          | some td =>
            match td with
            | .scalar t => simp [complete_value, hn, hm, with_errors]
            | .enum t => simp [complete_value, hn, hm, with_errors]
            | .object object_type =>
              cases hms : merge_selection_sets fs with
              | error p => simp only [complete_value, hn, Bool.false_eq_true, if_false, hm, hms, with_errors]
              | ok merged =>
                simp only [complete_value, hn, Bool.false_eq_true, if_false, hm, hms]
                rw [ih_ess env ctx merged object_type (some v)]
                cases hr : execute_selection_set env fuel { ctx with errors := [] }
                    merged object_type (some v) with
                | error p => rfl
                | ok r =>
                  obtain ⟨w, c'⟩ := r
                  rfl
            | .interface it =>
              cases ha : resolve_abstract_type env ctx.introspecting (.interface it) v with
              | error e =>
                simp only [complete_value, hn, Bool.false_eq_true, if_false, hm, ha, with_errors]
                simp
              | ok object_type =>
                cases hms : merge_selection_sets fs with
                | error p => simp only [complete_value, hn, Bool.false_eq_true, if_false, hm, ha, hms, with_errors]
                | ok merged =>
                  simp only [complete_value, hn, Bool.false_eq_true, if_false, hm, ha, hms]
                  rw [ih_ess env ctx merged object_type (some v)]
                  cases hr : execute_selection_set env fuel { ctx with errors := [] }
                      merged object_type (some v) with
                  | error p => rfl
                  | ok r =>
                    obtain ⟨w, c'⟩ := r
                    rfl
            | .union ut =>
              cases ha : resolve_abstract_type env ctx.introspecting (.union ut) v with
              | error e =>
                simp only [complete_value, hn, Bool.false_eq_true, if_false, hm, ha, with_errors]
                simp
              | ok object_type =>
                cases hms : merge_selection_sets fs with
                | error p => simp only [complete_value, hn, Bool.false_eq_true, if_false, hm, ha, hms, with_errors]
                | ok merged =>
                  simp only [complete_value, hn, Bool.false_eq_true, if_false, hm, ha, hms]
                  rw [ih_ess env ctx merged object_type (some v)]
                  cases hr : execute_selection_set env fuel { ctx with errors := [] }
                      merged object_type (some v) with
                  | error p => rfl
                  | ok r =>
                    obtain ⟨w, c'⟩ := r
                    rfl
            | .input_object t => simp only [complete_value, hn, Bool.false_eq_true, if_false, hm, with_errors]
    · intro env ctx f t fs vs
      match vs with
      | [] =>
        simp [complete_list_values, with_errors]
      | v :: rest =>
        simp only [complete_list_values]
        rw [ih_cv env ctx f t fs v]
        cases hr : complete_value env fuel { ctx with errors := [] } f t fs v with
        | error p => rfl
        | ok r =>
          obtain ⟨rv, c'⟩ := r
          match rv with
          | .error e => rfl
          | .ok cv =>
            show (match complete_list_values env fuel { c' with errors := ctx.errors ++ c'.errors }
                f t fs rest with
              | Except.error p => Except.error p
              | Except.ok (Except.error e, ctx'') => Except.ok (Except.error e, ctx'')
              | Except.ok (Except.ok cvs, ctx'') => Except.ok (Except.ok (cv :: cvs), ctx''))
              = with_errors ctx.errors
                  (match complete_list_values env fuel c' f t fs rest with
                  | Except.error p => Except.error p
                  | Except.ok (Except.error e, ctx'') => Except.ok (Except.error e, ctx'')
                  | Except.ok (Except.ok cvs, ctx'') => Except.ok (Except.ok (cv :: cvs), ctx''))
            have h1 := ih_cl env { c' with errors := ctx.errors ++ c'.errors } f t fs rest
            have h2 := ih_cl env c' f t fs rest
            dsimp only [] at h1
            rw [h1, h2]
            cases hr₂ : complete_list_values env fuel { c' with errors := [] } f t fs rest with
            | error p => rfl
            | ok r₂ =>
              obtain ⟨rv₂, c''⟩ := r₂
              cases rv₂ with
              | error e => simp [with_errors]
              | ok cvs => simp [with_errors]

theorem execute_groups_frame (fuel : Nat) (env : Env) (ctx : Ctx) (ot : ObjectType)
    (ov : Option Value) (gs : List (String × List Field)) (m : List (String × Value)) :
    execute_groups env fuel ctx ot ov gs m
      = with_errors ctx.errors (execute_groups env fuel { ctx with errors := [] } ot ov gs m) :=
  (errors_frame fuel).2.1 env ctx ot ov gs m

theorem execute_selection_set_frame (fuel : Nat) (env : Env) (ctx : Ctx) (ss : SelectionSet)
    (ot : ObjectType) (ov : Option Value) :
    execute_selection_set env fuel ctx ss ot ov
      = with_errors ctx.errors (execute_selection_set env fuel { ctx with errors := [] } ss ot ov) :=
  (errors_frame fuel).1 env ctx ss ot ov

theorem chars_lt_trans : ∀ {x y z : List Char},
    chars_lt x y = true → chars_lt y z = true → chars_lt x z = true := by
  intro x
  induction x with
  | nil =>
    intro y z hxy hyz
    match y, z with
    | _, [] => simp [chars_lt] at hyz
    | [], _ :: _ => simp [chars_lt] at hxy
    | _ :: _, _ :: _ => simp [chars_lt]
  | cons a as ih =>
    intro y z hxy hyz
    match y, z with
    | [], _ => simp [chars_lt] at hxy
    | _ :: _, [] => simp [chars_lt] at hyz
    | b :: bs, c :: cs =>
      simp only [chars_lt] at hxy hyz ⊢
      by_cases hab : a.toNat < b.toNat
      · by_cases hbc : b.toNat < c.toNat
        · rw [if_pos (show a.toNat < c.toNat by omega)]
        · rw [if_neg hbc] at hyz
          by_cases hcb : c.toNat < b.toNat
          · rw [if_pos hcb] at hyz
            cases hyz
          · rw [if_pos (show a.toNat < c.toNat by omega)]
      · by_cases hba : b.toNat < a.toNat
        · rw [if_neg hab, if_pos hba] at hxy
          cases hxy
        · rw [if_neg hab, if_neg hba] at hxy
          by_cases hbc : b.toNat < c.toNat
          · rw [if_pos (show a.toNat < c.toNat by omega)]
          · by_cases hcb : c.toNat < b.toNat
            · rw [if_neg hbc, if_pos hcb] at hyz
              cases hyz
            · rw [if_neg hbc, if_neg hcb] at hyz
              rw [if_neg (show ¬ a.toNat < c.toNat by omega),
                if_neg (show ¬ c.toNat < a.toNat by omega)]
              exact ih hxy hyz

theorem chars_lt_eq_of_not : ∀ {x y : List Char},
    chars_lt x y = false → chars_lt y x = false → x = y := by
  intro x
  induction x with
  | nil =>
    intro y hxy hyx
    match y with
    | [] => rfl
    | b :: bs => simp [chars_lt] at hxy
  | cons a as ih =>
    intro y hxy hyx
    match y with
    | [] => simp [chars_lt] at hyx
    | b :: bs =>
      simp only [chars_lt] at hxy hyx
      by_cases hab : a.toNat < b.toNat
      · rw [if_pos hab] at hxy
        cases hxy
      · by_cases hba : b.toNat < a.toNat
        · rw [if_pos hba] at hyx
          cases hyx
        · rw [if_neg hab, if_neg hba] at hxy
          have hchar : a = b := Char.eq_of_val_eq (UInt32.ext (by
            simp only [Char.toNat] at hab hba
            omega))
          rw [hchar, ih hxy (by rw [if_neg hba, if_neg hab] at hyx; exact hyx)]

theorem str_lt_of_not_lt_of_ne {k k' : String} (h1 : str_lt k k' = false)
    (h2 : (k == k') = false) : str_lt k' k = true := by
  cases h3 : str_lt k' k
  · have hd := chars_lt_eq_of_not h1 h3
    have : k = k' := String.ext hd
    rw [this, beq_self_eq_true] at h2
    cases h2
  · rfl

theorem mem_btree_insert {m : List (String × Value)} {k : String} {v : Value}
    {x : String × Value} (hx : x ∈ btree_insert m k v) : x.1 = k ∨ x ∈ m := by
  induction m with
  | nil =>
    simp only [btree_insert, List.mem_singleton] at hx
    subst hx
    exact Or.inl rfl
  | cons p rest ih =>
    obtain ⟨k', v'⟩ := p
    cases h1 : str_lt k k'
    · cases h2 : k == k'
      · simp only [btree_insert, h1, h2, Bool.false_eq_true, if_false] at hx
        rcases List.mem_cons.mp hx with rfl | hx2
        · exact Or.inr (List.mem_cons_self _ _)
        · rcases ih hx2 with h | h
          · exact Or.inl h
          · exact Or.inr (List.mem_cons_of_mem _ h)
      · simp only [btree_insert, h1, h2, Bool.false_eq_true, if_false, if_true] at hx
        rcases List.mem_cons.mp hx with rfl | hx2
        · exact Or.inl rfl
        · exact Or.inr (List.mem_cons_of_mem _ hx2)
    · simp only [btree_insert, h1, if_true] at hx
      rcases List.mem_cons.mp hx with rfl | hx2
      · exact Or.inl rfl
      · exact Or.inr hx2

theorem btree_insert_sorted {m : List (String × Value)} (hm : map_sorted m)
    (k : String) (v : Value) : map_sorted (btree_insert m k v) := by
  induction m with
  | nil =>
    simp [btree_insert, map_sorted]
  | cons p rest ih =>
    obtain ⟨k', v'⟩ := p
    rw [map_sorted, List.pairwise_cons] at hm
    obtain ⟨hbound, hrest⟩ := hm
    rw [map_sorted]
    cases h1 : str_lt k k'
    · cases h2 : k == k'
      · simp only [btree_insert, h1, h2, Bool.false_eq_true, if_false]
        refine List.Pairwise.cons ?_ (ih hrest)
        intro x hx
        rcases mem_btree_insert hx with h | h
        · rw [h]
          exact str_lt_of_not_lt_of_ne h1 h2
        · exact hbound x h
      · simp only [btree_insert, h1, h2, Bool.false_eq_true, if_false, if_true]
        have hk : k = k' := eq_of_beq h2
        refine List.Pairwise.cons ?_ hrest
        intro x hx
        rw [hk]
        exact hbound x hx
    · simp only [btree_insert, h1, if_true]
      refine List.Pairwise.cons ?_ (List.Pairwise.cons hbound hrest)
      intro x hx
      rcases List.mem_cons.mp hx with rfl | hx2
      · exact h1
      · exact chars_lt_trans h1 (hbound x hx2)

/-- The grouped-field loop only ever inserts through `btree_insert`, so it
preserves the result map's key order. -/
theorem execute_groups_sorted (env : Env) (ot : ObjectType) (ov : Option Value) :
    ∀ (fuel : Nat) (ctx : Ctx) (gs : List (String × List Field)) (m : List (String × Value))
      (m' : List (String × Value)) (ctx' : Ctx),
      map_sorted m →
      execute_groups env fuel ctx ot ov gs m = .ok (m', ctx') →
      map_sorted m' := by
  intro fuel
  induction fuel with
  | zero =>
    intro ctx gs m m' ctx' hm h
    cases h
  | succ fuel ih =>
    intro ctx gs m m' ctx' hm h
    match gs with
    | [] =>
      simp only [execute_groups] at h
      injection h with h'
      injection h' with h1 h2
      subst h1
      exact hm
    | (key, fields) :: rest =>
      match fields with
      | [] =>
        simp only [execute_groups] at h
        cases h
      | f0 :: tl =>
        simp only [execute_groups] at h
        cases hd : get_field_type env ctx.introspecting ot f0.name with
        | none =>
          simp only [hd] at h
          exact ih ctx rest m m' ctx' hm h
        | some fd =>
          obtain ⟨field_def, intro⟩ := fd
          simp only [hd] at h
          cases hf : execute_field env fuel
              { ctx with fields := f0 :: ctx.fields, introspecting := intro }
              ot ov f0 field_def (f0 :: tl) with
          | error p =>
            simp [hf] at h
          | ok r =>
            obtain ⟨rv, c₂⟩ := r
            cases rv with
            | ok v =>
              simp only [hf] at h
              exact ih _ rest _ m' ctx' (btree_insert_sorted hm key v) h
            | error e =>
              simp only [hf] at h
              exact ih _ rest _ m' ctx' (btree_insert_sorted hm key .null) h

/-! Concrete query/schema instances used by the witnesses and
counterexamples below. -/

/-- C2, counterexample: for the document `{ b a }` the grouped field set
lists the response keys in first-occurrence order `b, a`, but the resulting
object's entries are in *sorted* key order `a, b` — `execute_selection_set`
accumulates its result in a `BTreeMap`, so first-occurrence order is not
preserved in the output object. -/
theorem c2_counterexample :
    collect_fields env_ab false query_type_ab (ss_of [.field field_b, .field field_a]) none
      = .ok [("b", [field_b]), ("a", [field_a])]
    ∧ execute_selection_set env_ab 10 ⟨[], false, []⟩
        (ss_of [.field field_b, .field field_a]) query_type_ab (some parent_ab)
      = .ok (.object [("a", .str "1"), ("b", .str "2")], ⟨[], false, []⟩)
    ∧ (["a", "b"] : List String) ≠ ["b", "a"] := by
  refine ⟨rfl, rfl, ?_⟩
  decide

/-- C2 (amended): the groups are *executed* in first-occurrence order of
the response keys, but the entries of any resulting object value appear in
strictly ascending (lexicographic) key order — the `BTreeMap` result map
determines the observable order, not the grouped field set. -/
theorem c2_amended (env : Env) (fuel : Nat) (ctx : Ctx) (ss : SelectionSet)
    (ot : ObjectType) (ov : Option Value) (entries : List (String × Value)) (ctx' : Ctx)
    (h : execute_selection_set env fuel ctx ss ot ov = .ok (.object entries, ctx')) :
    List.Pairwise (fun a b : String × Value => str_lt a.1 b.1 = true) entries := by
  match fuel with
  | 0 => simp [execute_selection_set] at h
  | fuel + 1 =>
    cases hc : collect_fields env ctx.introspecting ot ss none with
    | error p => simp [execute_selection_set, hc] at h
    | ok grouped =>
      cases hg : execute_groups env fuel ctx ot ov grouped [] with
      | error p => simp [execute_selection_set, hc, hg] at h
      | ok r =>
        obtain ⟨m, c⟩ := r
        simp only [execute_selection_set, hc, hg] at h
        cases hme : m.isEmpty with
        | true => simp [hme] at h
        | false =>
          simp only [hme, Bool.false_eq_true, if_false, Except.ok.injEq, Prod.mk.injEq,
            Value.object.injEq] at h
          obtain ⟨rfl, rfl⟩ := h
          exact execute_groups_sorted env ot ov fuel ctx grouped [] m c
            (by simp [map_sorted]) hg

/-- C2, witness for the amended theorem at the `{ b a }` scenario. -/
theorem c2_witness :
    List.Pairwise (fun a b : String × Value => str_lt a.1 b.1 = true)
      [("a", Value.str "1"), ("b", Value.str "2")] :=
  c2_amended env_ab 10 ⟨[], false, []⟩ (ss_of [.field field_b, .field field_a])
    query_type_ab (some parent_ab) [("a", .str "1"), ("b", .str "2")] ⟨[], false, []⟩ rfl

/-- C4, counterexample: for the document `{ missing }` against
`type Query { a: String, b: String }` the response key is silently dropped
with no error and the resolver untouched — but the result data is `Null`,
not an empty object: `execute_selection_set` returns `Value::Null` when the
result map is empty. -/
theorem c4_counterexample :
    execute_root_selection_set env_ab 10 (ss_of [.field field_missing]) (some parent_ab)
      = .ok (.null, [])
    ∧ Value.null ≠ Value.object [] := by
  refine ⟨rfl, ?_⟩
  intro h
  cases h

theorem execute_groups_skip_all (env : Env) (ot : ObjectType) (ov : Option Value) :
    ∀ (groups : List (String × List Field)) (fuel : Nat) (ctx : Ctx)
      (m : List (String × Value)),
      (∀ kf ∈ groups, ∃ f0 tl, kf.2 = f0 :: tl
        ∧ get_field_type env ctx.introspecting ot f0.name = none) →
      groups.length < fuel →
      execute_groups env fuel ctx ot ov groups m = .ok (m, ctx) := by
  intro groups
  induction groups with
  | nil =>
    intro fuel ctx m hnone hfuel
    match fuel, hfuel with
    | fuel + 1, _ => rfl
  | cons kf rest ih =>
    intro fuel ctx m hnone hfuel
    obtain ⟨key, fls⟩ := kf
    obtain ⟨f0, tl, hfls, hd⟩ := hnone (key, fls) (List.mem_cons_self _ _)
    simp only at hfls
    subst hfls
    match fuel, hfuel with
    | fuel + 1, hfuel =>
      simp only [execute_groups, hd]
      exact ih fuel ctx m (fun kf hkf => hnone kf (List.mem_cons_of_mem _ hkf))
        (by simp only [List.length_cons] at hfuel; omega)

/-- C4 (amended): a response key whose field definition is found neither on
the object type nor in the introspection root probe is silently dropped: no
error is appended, the context is untouched (so no resolver effect can
occur), and when *every* collected group is such, the result data is `Null`
— the empty result map is returned as `Value::Null`, not as an empty
object. -/
theorem c4_amended (env : Env) (fuel : Nat) (ctx : Ctx) (ss : SelectionSet)
    (ot : ObjectType) (ov : Option Value) (groups : List (String × List Field))
    (hc : collect_fields env ctx.introspecting ot ss none = .ok groups)
    (hnone : ∀ kf ∈ groups, ∃ f0 tl, kf.2 = f0 :: tl
      ∧ get_field_type env ctx.introspecting ot f0.name = none)
    (hfuel : groups.length < fuel) :
    execute_selection_set env (fuel + 1) ctx ss ot ov = .ok (.null, ctx) := by
  simp only [execute_selection_set, hc,
    execute_groups_skip_all env ot ov groups fuel ctx [] hnone hfuel]
  rfl

/-- C4, witness at the `{ missing }` scenario. -/
theorem c4_witness :
    execute_selection_set env_ab 6 ⟨[], false, []⟩ (ss_of [.field field_missing])
      query_type_ab (some parent_ab) = .ok (.null, ⟨[], false, []⟩) :=
  c4_amended env_ab 5 ⟨[], false, []⟩ (ss_of [.field field_missing]) query_type_ab
    (some parent_ab) [("missing", [field_missing])] rfl
    (by
      intro kf hkf
      rcases List.mem_singleton.mp hkf with rfl
      exact ⟨field_missing, [], rfl, rfl⟩)
    (by simp)

/-- C1: a declared non-null type whose completed value is Null is an error
at that field and nowhere else.  (i) `complete_value` on `NonNull(inner)`
whose inner completion yields `Ok Null` returns exactly
`NonNullError(position, name)` of that field and leaves the context exactly
as the inner completion left it — no extra error is recorded by completion
itself.  (ii) in the group loop, a field whose execution fails with a
`NonNullError` gets `Null` in its own response-key slot, exactly that one
error appended after the errors already accumulated, and the remaining
sibling groups are the *same* computation (same base run, by the
write-only-errors frame property) as if the field had merely produced
`Ok Null`: the two continuations differ exactly by the single
`NonNullError`, so no sibling value and no enclosing object changes. -/
theorem c1_non_null_null_field (env : Env) :
    (∀ (fuel : Nat) (ctx : Ctx) (field : Field) (inner : SType) (fields : List Field)
       (rv : Value) (ctx' : Ctx),
       complete_value env fuel ctx field inner fields rv = .ok (.ok .null, ctx') →
       complete_value env (fuel + 1) ctx field (.non_null inner) fields rv
         = .ok (.error (.non_null_error field.position field.name), ctx'))
    ∧ (∀ (fuel : Nat) (ctx : Ctx) (ot : ObjectType) (ov : Option Value) (key : String)
       (f0 : Field) (fs : List Field) (d : SField) (intro : Bool)
       (rest : List (String × List Field)) (m : List (String × Value))
       (p : Pos) (nm : String) (ctx₂ : Ctx),
       get_field_type env ctx.introspecting ot f0.name = some (d, intro) →
       execute_field env fuel { ctx with fields := f0 :: ctx.fields, introspecting := intro }
           ot ov f0 d (f0 :: fs) = .ok (.error (.non_null_error p nm), ctx₂) →
       execute_groups env (fuel + 1) ctx ot ov ((key, f0 :: fs) :: rest) m
         = with_errors (ctx₂.errors ++ [.non_null_error p nm])
             (execute_groups env fuel { ctx₂ with fields := ctx₂.fields.tail, errors := [] }
               ot ov rest (btree_insert m key .null))
       ∧ execute_groups env fuel { ctx₂ with fields := ctx₂.fields.tail }
           ot ov rest (btree_insert m key .null)
         = with_errors ctx₂.errors
             (execute_groups env fuel { ctx₂ with fields := ctx₂.fields.tail, errors := [] }
               ot ov rest (btree_insert m key .null))) := by
  constructor
  · intro fuel ctx field inner fields rv ctx' h
    simp only [complete_value, h]
  · intro fuel ctx ot ov key f0 fs d intro rest m p nm ctx₂ hd hf
    constructor
    · simp only [execute_groups, hd, hf]
      have h := execute_groups_frame fuel env
        ⟨ctx₂.fields.tail, ctx₂.introspecting, ctx₂.errors ++ [.non_null_error p nm]⟩
        ot ov rest (btree_insert m key .null)
      dsimp only [] at h
      exact h
    · have h := execute_groups_frame fuel env
        ⟨ctx₂.fields.tail, ctx₂.introspecting, ctx₂.errors⟩
        ot ov rest (btree_insert m key .null)
      dsimp only [] at h
      exact h

/-- C1, witness: `{ name }` against `type Query { name: String! }` with a
parent object lacking `name`, so the resolver yields Null for a non-null
field. -/
theorem c1_witness :
    complete_value env_nn 4 ⟨[], false, []⟩ field_name_q (.non_null (.named "String"))
        [field_name_q] .null
      = .ok (.error (.non_null_error p0 "name"), ⟨[], false, []⟩)
    ∧ (execute_groups env_nn 5 ⟨[], false, []⟩ query_type_nn (some (.object []))
           [("name", [field_name_q])] []
         = with_errors ([] ++ [ExecutionError.non_null_error p0 "name"])
             (execute_groups env_nn 4 ⟨[], false, []⟩ query_type_nn (some (.object []))
               [] (btree_insert [] "name" .null))
       ∧ execute_groups env_nn 4 ⟨[], false, []⟩ query_type_nn (some (.object []))
           [] (btree_insert [] "name" .null)
         = with_errors [] (execute_groups env_nn 4 ⟨[], false, []⟩ query_type_nn
             (some (.object [])) [] (btree_insert [] "name" .null))) := by
  refine ⟨(c1_non_null_null_field env_nn).1 3 ⟨[], false, []⟩ field_name_q (.named "String")
    [field_name_q] .null ⟨[], false, []⟩ rfl, ?_⟩
  exact (c1_non_null_null_field env_nn).2 4 ⟨[], false, []⟩ query_type_nn (some (.object []))
    "name" field_name_q [] (sfield "name" (.non_null (.named "String"))) false [] [] p0 "name"
    ⟨[field_name_q], false, []⟩ rfl rfl

/-- C3, counterexample: in `{ __schema name }` the meta-field activates
introspection mode, but the flag is *not* reset when that subtree
completes: the sibling `name` — found only in the user schema — is then
resolved with the introspection schema still active, so its named type
`String` is looked up in the introspection schema, fails with
`NamedTypeError("String")`, and the slot becomes Null; the final context
still carries `introspecting = true`.  Resolving `name` with the user
schema/resolver pair (second equation: the same query without the
meta-field sibling) yields `{name: "Jordi"}` with no error. -/
theorem c3_counterexample :
    execute_selection_set env_c3 10 ⟨[], false, []⟩
        (ss_of [.field field_schema_q, .field field_name_q]) user_query_c3 (some parent_c3)
      = .ok (.object [("__schema", .str "intro"), ("name", .null)],
             ⟨[], true, [.named_type_error "String"]⟩)
    ∧ execute_selection_set env_c3 10 ⟨[], false, []⟩
        (ss_of [.field field_name_q]) user_query_c3 (some parent_c3)
      = .ok (.object [("name", .str "Jordi")], ⟨[], false, []⟩)
    ∧ Value.null ≠ Value.str "Jordi" := by
  refine ⟨rfl, rfl, ?_⟩
  intro h
  cases h

/-- C3 (amended): a hit in the introspection root's fields activates
introspection mode for the field's subtree (the definition is paired with
`true`), but the mode is *not* deactivated when the subtree completes: the
user-schema fallback of `get_field_type` pairs the definition with the
*current* `introspecting` flag, so a sibling found only in the user schema
after an introspection sibling is resolved with whatever mode is left over
(the introspection pair), not with the user pair. -/
theorem c3_amended (env : Env) (introspecting : Bool) (ot : ObjectType) (name : String)
    (root iroot : ObjectType)
    (hroot : get_root_query_type env.schema = some root)
    (hbeq : object_type_beq ot root = true)
    (hiroot : get_root_query_type env.introspection_schema = some iroot) :
    (∀ d, get_field_type_on iroot name = some d →
       get_field_type env introspecting ot name = some (d, true))
    ∧ (∀ d, get_field_type_on iroot name = none → get_field_type_on ot name = some d →
       get_field_type env introspecting ot name = some (d, introspecting)) := by
  constructor
  · intro d hd
    simp only [get_field_type, hroot, hbeq, hiroot, hd, if_true, Option.map_some']
  · intro d hskip hd
    simp only [get_field_type, hroot, hbeq, hiroot, hskip, hd, if_true,
      Option.map_some', Option.map_none']

/-- C3, witness for the amended theorem: in the scenario environment the
meta-field probe pairs `__schema` with `true`, and the user-only `name`
keeps the current (still-true) flag. -/
theorem c3_witness :
    get_field_type env_c3 false user_query_c3 "__schema"
      = some (sfield "__schema" (.named "IntroData"), true)
    ∧ get_field_type env_c3 true user_query_c3 "name"
      = some (sfield "name" (.named "String"), true) :=
  ⟨(c3_amended env_c3 false user_query_c3 "__schema" user_query_c3 intro_query_type
      rfl rfl rfl).1 (sfield "__schema" (.named "IntroData")) rfl,
   (c3_amended env_c3 true user_query_c3 "name" user_query_c3 intro_query_type
      rfl rfl rfl).2 (sfield "name" (.named "String")) rfl rfl⟩

/-- C5, counterexample: with schema default `n: Int = "abc"`, omitting the
argument hands the resolver the raw literal `"abc"` uncoerced, while
supplying that same literal explicitly fails coercion with
`InvalidArgumentError` — the two paths neither succeed identically nor fail
identically, because the omitted-argument path inserts the default literal
without ever calling the coercion function. -/
theorem c5_counterexample :
    coerce_argument_values env_c5 false query_type_c5 field_f_omit
      = .ok (.ok [("n", .str "abc")])
    ∧ coerce_argument_values env_c5 false query_type_c5 field_f_expl
      = .ok (.error (.invalid_argument_error p0 "n" (.str "abc"))) :=
  ⟨rfl, rfl⟩

/-- C5 (amended): an argument omitted from the field node whose definition
carries a schema default is bound to the default literal *uncoerced* —
`coerce_argument_values` clones the literal into the coerced map without
calling the coercion function, so the outcome agrees with explicitly
supplying the default only when coercion is the identity on that
literal. -/
theorem c5_amended (env : Env) (introspecting : Bool) (ot : ObjectType) (field : Field)
    (a : InputValue) (d : Value)
    (hdefs : get_argument_definitions ot field.name = some [a])
    (habsent : get_argument_value field.arguments a.name = none)
    (hdef : a.default_value = some d) :
    coerce_argument_values env introspecting ot field = .ok (.ok [(a.name, d)]) := by
  simp only [coerce_argument_values, hdefs, coerce_arg_loop, habsent, hdef, alist_insert,
    List.any_nil, Bool.false_eq_true, if_false, List.nil_append]

/-- C5, witness for the amended theorem at the `f(n: Int = "abc")`
scenario. -/
theorem c5_witness :
    coerce_argument_values env_c5 false query_type_c5 field_f_omit
      = .ok (.ok [("n", Value.str "abc")]) :=
  c5_amended env_c5 false query_type_c5 field_f_omit
    ⟨"n", .named "Int", some (.str "abc")⟩ (.str "abc") rfl rfl rfl

/-- The cycle guard of fragment collection: a spread whose fragment name is
already in the visited set contributes nothing and is not expanded. -/
theorem collect_loop_skip_visited (env : Env) (introspecting : Bool) (ot : ObjectType)
    (name : String) (rest : List Selection) (grouped : List (String × List Field))
    (visited : List String) (hvis : visited.contains name = true) :
    collect_loop env introspecting ot (.fragment_spread name :: rest) grouped visited
      = collect_loop env introspecting ot rest grouped visited := by
  rw [collect_loop_eq]
  show (if visited.contains name then collect_loop env introspecting ot rest grouped visited
      else _) = _
  rw [hvis]
  simp only [if_true]

theorem contains_cons_of_contains {v : List String} {n : String} (m : String)
    (h : v.contains n = true) : (m :: v).contains n = true := by
  simp only [List.contains_cons, h, Bool.or_true]

/-- A later sibling spread of an already-visited fragment name can be
deleted without changing the collected groups: the visited set only ever
grows along the loop. -/
theorem collect_loop_dup_spread (env : Env) (introspecting : Bool) (ot : ObjectType)
    (n : String) :
    ∀ (items tail : List Selection) (grouped : List (String × List Field))
      (visited : List String), visited.contains n = true →
      collect_loop env introspecting ot (items ++ .fragment_spread n :: tail) grouped visited
        = collect_loop env introspecting ot (items ++ tail) grouped visited := by
  intro items
  induction items with
  | nil =>
    intro tail grouped visited hvis
    simpa using collect_loop_skip_visited env introspecting ot n tail grouped visited hvis
  | cons sel items' ih =>
    intro tail grouped visited hvis
    match sel with
    | .field f =>
      rw [List.cons_append, collect_loop_eq, List.cons_append,
        collect_loop_eq env introspecting ot (.field f :: (items' ++ tail))]
      exact ih tail (group_push grouped (get_response_key f) f) visited hvis
    | .fragment_spread m =>
      rw [List.cons_append, collect_loop_eq, List.cons_append,
        collect_loop_eq env introspecting ot (.fragment_spread m :: (items' ++ tail))]
      show (if visited.contains m then
            collect_loop env introspecting ot (items' ++ .fragment_spread n :: tail)
              grouped visited
          else _)
        = (if visited.contains m then
            collect_loop env introspecting ot (items' ++ tail) grouped visited
          else _)
      cases hm : visited.contains m
      · simp only [Bool.false_eq_true, if_false]
        cases hfrag : get_fragment env.document m
        · exact ih tail grouped (m :: visited) (contains_cons_of_contains m hvis)
        · case _ frag =>
          show (if does_fragment_type_apply env introspecting ot frag.type_condition then
              match collect_loop env introspecting ot
                  (filter_selections env frag.selection_set.items) [] (m :: visited) with
              | .error p => .error p
              | .ok sub => collect_loop env introspecting ot
                  (items' ++ .fragment_spread n :: tail) (merge_grouped grouped sub) (m :: visited)
            else collect_loop env introspecting ot (items' ++ .fragment_spread n :: tail)
                grouped (m :: visited))
            = (if does_fragment_type_apply env introspecting ot frag.type_condition then
              match collect_loop env introspecting ot
                  (filter_selections env frag.selection_set.items) [] (m :: visited) with
              | .error p => .error p
              | .ok sub => collect_loop env introspecting ot
                  (items' ++ tail) (merge_grouped grouped sub) (m :: visited)
            else collect_loop env introspecting ot (items' ++ tail) grouped (m :: visited))
          cases happ : does_fragment_type_apply env introspecting ot frag.type_condition
          · simp only [Bool.false_eq_true, if_false]
            exact ih tail grouped (m :: visited) (contains_cons_of_contains m hvis)
          · simp only [if_true]
            cases hsub : collect_loop env introspecting ot
                (filter_selections env frag.selection_set.items) [] (m :: visited)
            · rfl
            · case _ sub =>
              exact ih tail (merge_grouped grouped sub) (m :: visited)
                (contains_cons_of_contains m hvis)
      · simp only [if_true]
        exact ih tail grouped visited hvis
    | .inline_fragment =>
      rw [List.cons_append, collect_loop_eq, List.cons_append,
        collect_loop_eq env introspecting ot (.inline_fragment :: (items' ++ tail))]

/-- C7: `collect_fields` terminates for every query document, including
cyclically spreading fragments.  (i) the cycle guard: a fragment name
already in the visited set (which contains the current expansion path and
is threaded through the recursion) is never expanded again; (ii) the
collection loop, started as `collect_fields` starts it, never exhausts its
(provably sufficient) recursion budget — the embedding's rendering of
termination of the source's unbounded recursion. -/
theorem c7_cycle_guard :
    (∀ (env : Env) (introspecting : Bool) (ot : ObjectType) (name : String)
       (rest : List Selection) (grouped : List (String × List Field))
       (visited : List String), visited.contains name = true →
       collect_loop env introspecting ot (.fragment_spread name :: rest) grouped visited
         = collect_loop env introspecting ot rest grouped visited)
    ∧ (∀ (env : Env) (introspecting : Bool) (ot : ObjectType) (ss : SelectionSet)
       (vis : Option (List String)),
       collect_fields env introspecting ot ss vis ≠ .error .out_of_fuel) :=
  ⟨collect_loop_skip_visited,
   fun env introspecting ot ss vis =>
     collect_loop_no_out_of_fuel env introspecting ot _ _ _ _ rfl⟩

/-- C7, witness: the guard fires on the cyclic document (`F` visited), and
collecting `{ ...F }` against the cyclic document terminates — indeed with
the expected single group. -/
theorem c7_witness :
    collect_loop env_cyc false query_type_cyc [.fragment_spread "F"] [("x", [field_x])] ["F"]
      = collect_loop env_cyc false query_type_cyc [] [("x", [field_x])] ["F"]
    ∧ collect_fields env_cyc false query_type_cyc (ss_of [.fragment_spread "F"]) none
        ≠ .error .out_of_fuel
    ∧ collect_fields env_cyc false query_type_cyc (ss_of [.fragment_spread "F"]) none
        = .ok [("x", [field_x])] :=
  ⟨c7_cycle_guard.1 env_cyc false query_type_cyc "F" [] [("x", [field_x])] ["F"] rfl,
   c7_cycle_guard.2 env_cyc false query_type_cyc (ss_of [.fragment_spread "F"]) none,
   rfl⟩

theorem any_beq_eq_contains (l : List String) (x : String) :
    l.any (fun n => n == x) = l.contains x := by
  induction l with
  | nil => rfl
  | cons a as ih =>
    have hc : (a == x) = (x == a) := by
      cases h : a == x
      · cases h2 : x == a
        · rfl
        · have hx := eq_of_beq h2
          subst hx
          simp at h
      · have hx := eq_of_beq h
        subst hx
        simp
    rw [List.any_cons, List.contains_cons, ih, hc]

/-- C8: fragment inclusion is governed exactly by the type condition.
(i) `does_fragment_type_apply` coincides with the spec's predicate (same
object type / implemented interface / union membership) on the active
schema; (ii) a spread whose condition does not apply leaves the grouped
field set untouched (only marking the name visited), so none of the
fragment's fields reach the result or the resolver; (iii) a spread whose
condition does apply merges exactly the fragment's (filtered) sub-selections
into the grouped field set. -/
theorem c8_fragment_type_condition :
    (∀ (env : Env) (introspecting : Bool) (ot : ObjectType) (cond : TypeCondition),
       does_fragment_type_apply env introspecting ot cond
         = fragment_applies_spec (active_schema env introspecting) ot cond)
    ∧ (∀ (env : Env) (introspecting : Bool) (ot : ObjectType) (name : String)
         (frag : FragmentDefinition) (rest : List Selection)
         (grouped : List (String × List Field)) (visited : List String),
        visited.contains name = false →
        get_fragment env.document name = some frag →
        does_fragment_type_apply env introspecting ot frag.type_condition = false →
        collect_loop env introspecting ot (.fragment_spread name :: rest) grouped visited
          = collect_loop env introspecting ot rest grouped (name :: visited))
    ∧ (∀ (env : Env) (introspecting : Bool) (ot : ObjectType) (name : String)
         (frag : FragmentDefinition) (rest : List Selection)
         (grouped : List (String × List Field)) (visited : List String),
        visited.contains name = false →
        get_fragment env.document name = some frag →
        does_fragment_type_apply env introspecting ot frag.type_condition = true →
        collect_loop env introspecting ot (.fragment_spread name :: rest) grouped visited
          = match collect_loop env introspecting ot
                (filter_selections env frag.selection_set.items) [] (name :: visited) with
            | .error p => .error p
            | .ok sub => collect_loop env introspecting ot rest
                (merge_grouped grouped sub) (name :: visited)) := by
  refine ⟨?conj1, ?conj2, ?conj3⟩
  case conj1 =>
    intro env introspecting ot cond
    match cond with
    | .on name =>
      show (match get_named_type (active_schema env introspecting) name with
          | some (.object o) => object_type_beq ot o
          | some (.interface it) => ot.implements_interfaces.any (fun n => n == it.name)
          | some (.union ut) => ut.types.any (fun n => n == ot.name)
          | _ => false)
        = (match get_named_type (active_schema env introspecting) name with
          | some (.object o) => object_type_beq ot o
          | some (.interface it) => ot.implements_interfaces.contains it.name
          | some (.union ut) => ut.types.contains ot.name
          | _ => false)
      cases h : get_named_type (active_schema env introspecting) name with
      | none => rfl
      | some td => cases td <;> simp [any_beq_eq_contains]
  case conj2 =>
    intro env introspecting ot name frag rest grouped visited hvis hfrag happ
    rw [collect_loop_eq]
    show (if visited.contains name then
          collect_loop env introspecting ot rest grouped visited
        else _) = _
    rw [hvis]
    simp only [Bool.false_eq_true, if_false]
    rw [hfrag]
    show (if does_fragment_type_apply env introspecting ot frag.type_condition then
        match collect_loop env introspecting ot
            (filter_selections env frag.selection_set.items) [] (name :: visited) with
        | .error p => .error p
        | .ok sub => collect_loop env introspecting ot rest
            (merge_grouped grouped sub) (name :: visited)
      else collect_loop env introspecting ot rest grouped (name :: visited)) = _
    rw [happ]
    simp only [Bool.false_eq_true, if_false]
  case conj3 =>
    intro env introspecting ot name frag rest grouped visited hvis hfrag happ
    rw [collect_loop_eq]
    show (if visited.contains name then
          collect_loop env introspecting ot rest grouped visited
        else _) = _
    rw [hvis]
    simp only [Bool.false_eq_true, if_false]
    rw [hfrag]
    show (if does_fragment_type_apply env introspecting ot frag.type_condition then
        match collect_loop env introspecting ot
            (filter_selections env frag.selection_set.items) [] (name :: visited) with
        | .error p => .error p
        | .ok sub => collect_loop env introspecting ot rest
            (merge_grouped grouped sub) (name :: visited)
      else collect_loop env introspecting ot rest grouped (name :: visited)) = _
    rw [happ]
    simp only [if_true]

/-- C8, witness: on the concrete environment, `...G` (condition `on Other`,
not applying to `Query`) changes nothing but the visited set, and `...H`
(condition `on Query`) merges exactly the fragment's sub-selection. -/
theorem c8_witness :
    does_fragment_type_apply env_c8 false query_type_cyc (.on "Other")
        = fragment_applies_spec (active_schema env_c8 false) query_type_cyc (.on "Other")
    ∧ collect_loop env_c8 false query_type_cyc [.fragment_spread "G"] [] []
        = collect_loop env_c8 false query_type_cyc [] [] ["G"]
    ∧ collect_loop env_c8 false query_type_cyc [.fragment_spread "H"] [] []
        = match collect_loop env_c8 false query_type_cyc
              (filter_selections env_c8 (ss_of [.field field_x]).items) [] ["H"] with
          | .error p => .error p
          | .ok sub => collect_loop env_c8 false query_type_cyc []
              (merge_grouped [] sub) ["H"] :=
  ⟨c8_fragment_type_condition.1 env_c8 false query_type_cyc (.on "Other"),
   c8_fragment_type_condition.2.1 env_c8 false query_type_cyc "G"
     ⟨"G", .on "Other", ss_of [.field field_x]⟩ [] [] [] rfl rfl rfl,
   c8_fragment_type_condition.2.2 env_c8 false query_type_cyc "H"
     ⟨"H", .on "Query", ss_of [.field field_x]⟩ [] [] [] rfl rfl rfl⟩

/-- C10: when the same fragment is spread twice among sibling selections,
only the first spread expands it; the second contributes no field nodes —
whatever lies between them, and whether or not the name was visited before.
After the first spread is processed the name is in the visited set (the set
is threaded forward, never removed from), so the loop's guard drops the
second spread. -/
theorem c10_duplicate_spread (env : Env) (introspecting : Bool) (ot : ObjectType)
    (n : String) (items tail : List Selection) (grouped : List (String × List Field))
    (visited : List String) :
    collect_loop env introspecting ot
        (.fragment_spread n :: (items ++ .fragment_spread n :: tail)) grouped visited
      = collect_loop env introspecting ot
          (.fragment_spread n :: (items ++ tail)) grouped visited := by
  rw [collect_loop_eq, collect_loop_eq env introspecting ot (.fragment_spread n :: (items ++ tail))]
  show (if visited.contains n then
        collect_loop env introspecting ot (items ++ .fragment_spread n :: tail) grouped visited
      else _)
    = (if visited.contains n then
        collect_loop env introspecting ot (items ++ tail) grouped visited
      else _)
  cases hvis : visited.contains n
  · simp only [Bool.false_eq_true, if_false]
    cases hfrag : get_fragment env.document n
    · exact collect_loop_dup_spread env introspecting ot n items tail grouped (n :: visited)
        (by simp [List.contains_cons])
    · case _ frag =>
      show (if does_fragment_type_apply env introspecting ot frag.type_condition then
          match collect_loop env introspecting ot
              (filter_selections env frag.selection_set.items) [] (n :: visited) with
          | .error p => .error p
          | .ok sub => collect_loop env introspecting ot
              (items ++ .fragment_spread n :: tail) (merge_grouped grouped sub) (n :: visited)
        else collect_loop env introspecting ot (items ++ .fragment_spread n :: tail)
            grouped (n :: visited))
        = (if does_fragment_type_apply env introspecting ot frag.type_condition then
          match collect_loop env introspecting ot
              (filter_selections env frag.selection_set.items) [] (n :: visited) with
          | .error p => .error p
          | .ok sub => collect_loop env introspecting ot
              (items ++ tail) (merge_grouped grouped sub) (n :: visited)
        else collect_loop env introspecting ot (items ++ tail) grouped (n :: visited))
      cases happ : does_fragment_type_apply env introspecting ot frag.type_condition
      · simp only [Bool.false_eq_true, if_false]
        exact collect_loop_dup_spread env introspecting ot n items tail grouped (n :: visited)
          (by simp [List.contains_cons])
      · simp only [if_true]
        cases hsub : collect_loop env introspecting ot
            (filter_selections env frag.selection_set.items) [] (n :: visited)
        · rfl
        · case _ sub =>
          exact collect_loop_dup_spread env introspecting ot n items tail
            (merge_grouped grouped sub) (n :: visited) (by simp [List.contains_cons])
  · simp only [if_true]
    exact collect_loop_dup_spread env introspecting ot n items tail grouped visited hvis

theorem merge_selection_sets_eq (fields : List Field) :
    merge_selection_sets fields
      = match (fields.foldl merge_step (none, [])).1 with
        | some sp => .ok (.mk sp (fields.foldl merge_step (none, [])).2)
        | none => .error (.unwrap_failed "merge_selection_sets: span of empty field list") :=
  rfl

theorem merge_fold_snd (fields : List Field) :
    ∀ (acc : Option (Pos × Pos) × List Selection),
      (fields.foldl merge_step acc).2 = acc.2 ++ concat_sub_selections fields := by
  induction fields with
  | nil => intro acc; simp [concat_sub_selections]
  | cons f fs ih =>
    intro acc
    rw [List.foldl_cons, ih (merge_step acc f)]
    simp [concat_sub_selections, merge_step, List.append_assoc]

/-- C6: one group, one resolver call, concatenated sub-selections.
(i) a successful `merge_selection_sets` yields exactly the in-order
concatenation of every grouped node's sub-selections; (ii) resolving an
object-typed field is exactly one call of the active resolver's object
entrypoint, fed the node's name and the given (already coerced) argument
values; (iii) completing an object-typed resolved value executes the merged
selection set against it, once; (iv) the group loop looks up the field
definition by the group's *first* node and runs the pipeline with that
node (hence its arguments) while passing the whole group only to the
merge — so the resolver is invoked exactly once per response key. -/
theorem c6_group_merge :
    (∀ (fields : List Field) (ss : SelectionSet),
       merge_selection_sets fields = .ok ss → ss.items = concat_sub_selections fields)
    ∧ (∀ (env : Env) (introspecting : Bool) (object_value : Option Value) (f0 : Field)
         (fd : SField) (tname : String) (args : List (String × Value)) (t : ObjectType),
       get_named_type (active_schema env introspecting) tname = some (.object t) →
       resolve_field_value_for_named_type env introspecting object_value f0 fd tname args
         = .ok (.ok ((if introspecting then env.introspection_resolver else env.resolver).resolve_object
             object_value f0.name fd t args)))
    ∧ (∀ (env : Env) (fuel : Nat) (ctx : Ctx) (field : Field) (name : String)
         (fields : List Field) (rv : Value) (t : ObjectType) (merged : SelectionSet),
       rv.is_null = false →
       get_named_type (active_schema env ctx.introspecting) name = some (.object t) →
       merge_selection_sets fields = .ok merged →
       complete_value env (fuel + 1) ctx field (.named name) fields rv
         = match execute_selection_set env fuel ctx merged t (some rv) with
           | .error p => .error p
           | .ok (v, ctx') => .ok (.ok v, ctx'))
    ∧ (∀ (env : Env) (fuel : Nat) (ctx : Ctx) (object_type : ObjectType)
         (object_value : Option Value) (key : String) (f0 : Field) (fs : List Field)
         (rest : List (String × List Field)) (rm : List (String × Value))
         (fd : SField) (intro : Bool),
       get_field_type env ctx.introspecting object_type f0.name = some (fd, intro) →
       execute_groups env (fuel + 1) ctx object_type object_value ((key, f0 :: fs) :: rest) rm
         = match execute_field env fuel ⟨f0 :: ctx.fields, intro, ctx.errors⟩
               object_type object_value f0 fd (f0 :: fs) with
           | .error p => .error p
           | .ok (.ok v, ctx₂) =>
               execute_groups env fuel ⟨ctx₂.fields.tail, ctx₂.introspecting, ctx₂.errors⟩
                 object_type object_value rest (btree_insert rm key v)
           | .ok (.error e, ctx₂) =>
               execute_groups env fuel ⟨ctx₂.fields.tail, ctx₂.introspecting, ctx₂.errors ++ [e]⟩
                 object_type object_value rest (btree_insert rm key .null)) := by
  refine ⟨?conj1, ?conj2, ?conj3, ?conj4⟩
  case conj1 =>
    intro fields ss h
    rw [merge_selection_sets_eq] at h
    cases h1 : (fields.foldl merge_step (none, [])).1 with
    | none =>
      rw [h1] at h
      have h' : (Except.error (Panic.unwrap_failed
            "merge_selection_sets: span of empty field list") : Except Panic SelectionSet)
          = Except.ok ss := h
      exact Except.noConfusion h'
    | some sp =>
      rw [h1] at h
      have h' : Except.ok (SelectionSet.mk sp ((fields.foldl merge_step (none, [])).2))
          = Except.ok ss := h
      injection h' with h2
      subst h2
      show (fields.foldl merge_step (none, [])).2 = concat_sub_selections fields
      simpa using merge_fold_snd fields (none, [])
  case conj2 =>
    intro env introspecting object_value f0 fd tname args t h
    simp only [resolve_field_value_for_named_type, h]
    cases introspecting <;> rfl
  case conj3 =>
    intro env fuel ctx field name fields rv t merged hnull hty hmerge
    simp only [complete_value, hnull, Bool.false_eq_true, if_false, hty, hmerge]
  case conj4 =>
    intro env fuel ctx object_type object_value key f0 fs rest rm fd intro h
    simp only [execute_groups, h]

/-- C6, witness: on the two-scalar-field environment, the merged selection
set of the one-node group `[field_a]` is its own (empty) sub-selection
list, object resolution is the single `resolve_object` call, object
completion runs the merged selection set, and the group loop dispatches on
the group's first node. -/
theorem c6_witness :
    (ss_of []).items = concat_sub_selections [field_a]
    ∧ resolve_field_value_for_named_type env_ab false none field_a
        (sfield "a" (.named "String")) "Query" []
        = .ok (.ok ((if false then env_ab.introspection_resolver else env_ab.resolver).resolve_object
            none field_a.name (sfield "a" (.named "String")) query_type_ab []))
    ∧ complete_value env_ab 1 ⟨[], false, []⟩ field_a (.named "Query") [field_a] parent_ab
        = (match execute_selection_set env_ab 0 ⟨[], false, []⟩ (ss_of []) query_type_ab
              (some parent_ab) with
          | .error p => .error p
          | .ok (v, ctx') => .ok (.ok v, ctx'))
    ∧ execute_groups env_ab 1 ⟨[], false, []⟩ query_type_ab (some parent_ab)
          [("a", [field_a])] []
        = (match execute_field env_ab 0 ⟨[field_a], false, []⟩ query_type_ab (some parent_ab)
              field_a (sfield "a" (.named "String")) [field_a] with
          | .error p => .error p
          | .ok (.ok v, ctx₂) =>
              execute_groups env_ab 0 ⟨ctx₂.fields.tail, ctx₂.introspecting, ctx₂.errors⟩
                query_type_ab (some parent_ab) [] (btree_insert [] "a" v)
          | .ok (.error e, ctx₂) =>
              execute_groups env_ab 0 ⟨ctx₂.fields.tail, ctx₂.introspecting, ctx₂.errors ++ [e]⟩
                query_type_ab (some parent_ab) [] (btree_insert [] "a" .null)) :=
  ⟨c6_group_merge.1 [field_a] (ss_of []) rfl,
   c6_group_merge.2.1 env_ab false none field_a (sfield "a" (.named "String")) "Query" []
     query_type_ab rfl,
   c6_group_merge.2.2.1 env_ab 0 ⟨[], false, []⟩ field_a "Query" [field_a] parent_ab
     query_type_ab (ss_of []) rfl rfl rfl,
   c6_group_merge.2.2.2 env_ab 0 ⟨[], false, []⟩ query_type_ab (some parent_ab) "a" field_a
     [] [] [] (sfield "a" (.named "String")) false rfl⟩

/-- C9, counterexample: a selection set containing an inline fragment does
not produce a typed error in the result's error list — the run aborts with
the `unimplemented!()` panic of `collect_fields` (execution.rs line 176),
before any data or error-list entry is produced. -/
theorem c9_counterexample :
    execute_selection_set env_cyc 1 ⟨[], false, []⟩ (ss_of [.inline_fragment])
        query_type_cyc none
      = .error (.unimplemented "collect_fields: inline fragment") := rfl

/-- C9, amended: the unimplemented branches do not fail closed with a typed
error in the error list — each aborts execution with an `unimplemented!()`
panic: (i) an inline fragment anywhere in the selection items; (ii)/(iii)
resolution of a field whose named type is an interface resp. a union;
(iv) a variable used as an argument value; and (v) a collection panic
propagates to the whole `execute_selection_set` run, so no data and no
error-list entry is produced for the query. -/
theorem c9_unimplemented_panics :
    (∀ (env : Env) (introspecting : Bool) (ot : ObjectType) (rest : List Selection)
       (grouped : List (String × List Field)) (visited : List String),
       collect_loop env introspecting ot (.inline_fragment :: rest) grouped visited
         = .error (.unimplemented "collect_fields: inline fragment"))
    ∧ (∀ (env : Env) (introspecting : Bool) (object_value : Option Value) (f : Field)
         (fd : SField) (tname : String) (args : List (String × Value)) (it : InterfaceType),
       get_named_type (active_schema env introspecting) tname = some (.interface it) →
       resolve_field_value_for_named_type env introspecting object_value f fd tname args
         = .error (.unimplemented "resolve_field_value_for_named_type: interface"))
    ∧ (∀ (env : Env) (introspecting : Bool) (object_value : Option Value) (f : Field)
         (fd : SField) (tname : String) (args : List (String × Value)) (ut : UnionType),
       get_named_type (active_schema env introspecting) tname = some (.union ut) →
       resolve_field_value_for_named_type env introspecting object_value f fd tname args
         = .error (.unimplemented "resolve_field_value_for_named_type: union"))
    ∧ (∀ (env : Env) (introspecting : Bool) (field : Field) (adef : InputValue)
         (rest : List InputValue) (acc : List (String × Value)) (vname : String),
       get_argument_value field.arguments adef.name = some (.var vname) →
       coerce_arg_loop env introspecting field (adef :: rest) acc
         = .error (.unimplemented "coerce_argument_values: variable argument"))
    ∧ (∀ (env : Env) (fuel : Nat) (ctx : Ctx) (ss : SelectionSet) (ot : ObjectType)
         (ov : Option Value) (p : Panic),
       collect_fields env ctx.introspecting ot ss none = .error p →
       execute_selection_set env (fuel + 1) ctx ss ot ov = .error p) := by
  refine ⟨?conj1, ?conj2, ?conj3, ?conj4, ?conj5⟩
  case conj1 =>
    intro env introspecting ot rest grouped visited
    rw [collect_loop_eq]
  case conj2 =>
    intro env introspecting object_value f fd tname args it h
    simp only [resolve_field_value_for_named_type, h]
  case conj3 =>
    intro env introspecting object_value f fd tname args ut h
    simp only [resolve_field_value_for_named_type, h]
  case conj4 =>
    intro env introspecting field adef rest acc vname h
    simp only [coerce_arg_loop, h]
  case conj5 =>
    intro env fuel ctx ss ot ov p h
    simp only [execute_selection_set, h]

/-- C9, witness: the four panic branches fire on concrete inputs — an
inline fragment, a field of type `I` (interface), a field of type `U`
(union), the argument `n: $v` — and the collection panic propagates to the
whole selection-set execution. -/
theorem c9_witness :
    collect_loop env_c9 false query_type_cyc [.inline_fragment] [] []
      = .error (.unimplemented "collect_fields: inline fragment")
    ∧ resolve_field_value_for_named_type env_c9 false none field_x
        (sfield "x" (.named "I")) "I" []
        = .error (.unimplemented "resolve_field_value_for_named_type: interface")
    ∧ resolve_field_value_for_named_type env_c9 false none field_x
        (sfield "x" (.named "U")) "U" []
        = .error (.unimplemented "resolve_field_value_for_named_type: union")
    ∧ coerce_arg_loop env_c9 false field_var [⟨"n", .named "Int", none⟩] []
        = .error (.unimplemented "coerce_argument_values: variable argument")
    ∧ execute_selection_set env_c9 1 ⟨[], false, []⟩ (ss_of [.inline_fragment])
          query_type_cyc none
        = .error (.unimplemented "collect_fields: inline fragment") :=
  ⟨c9_unimplemented_panics.1 env_c9 false query_type_cyc [] [] [],
   c9_unimplemented_panics.2.1 env_c9 false none field_x (sfield "x" (.named "I")) "I" []
     iface_I rfl,
   c9_unimplemented_panics.2.2.1 env_c9 false none field_x (sfield "x" (.named "U")) "U" []
     union_U rfl,
   c9_unimplemented_panics.2.2.2.1 env_c9 false field_var ⟨"n", .named "Int", none⟩ [] [] "v" rfl,
   c9_unimplemented_panics.2.2.2.2 env_c9 0 ⟨[], false, []⟩ (ss_of [.inline_fragment])
     query_type_cyc none (.unimplemented "collect_fields: inline fragment") rfl⟩

end Gq
